import Mathlib

/-!
KTF physical memory manager: `include/mm/pmm.h`

A shallow embedding of the macros and static inline functions of `pmm.h`.

Conventions of the embedding
* `mfn_t`, `paddr_t` and `unsigned long` are 64-bit unsigned integers: natural numbers,
  every arithmetic result reduced modulo `2 ^ 64`.
* A `frame_t *` that may be `NULL` is an `Option frame`.
* `PAGE_SIZE`, `MAX_PAGE_ORDER` and `mfn_to_paddr` are declared in headers that `pmm.h`
  includes; they are parameters of the definitions that use them.
* A function that can read through an invalid pointer or outside an array returns
  an `Option`: `none` is the invalid access.
-/

namespace PMM

/-! ## Machine arithmetic -/

/-- Addition of two 64-bit unsigned values. -/
def add64 (a b : Nat) : Nat := (a + b) % 2 ^ 64

/-- Subtraction of two 64-bit unsigned values (wraps below zero). -/
def sub64 (a b : Nat) : Nat := (a % 2 ^ 64 + (2 ^ 64 - b % 2 ^ 64)) % 2 ^ 64

/-- Left shift of a 64-bit unsigned value. For a shift count of 64 or more the C expression
is undefined; the embedding then keeps the truncated product. -/
def shl64 (a n : Nat) : Nat := (a * 2 ^ n) % 2 ^ 64

/-! ## Data model -/

/-- The bit-field `struct frame_flags`: three one-bit flags. -/
structure frame_flags where
  uncacheable : Bool
  free : Bool
  pagetable : Bool
deriving DecidableEq, Repr

/-- The descriptor `struct frame` without its list link: `mfn` is an `mfn_t` (64 bits),
`refcount` a `uint32_t`, `order` a `uint16_t`. -/
structure frame where
  mfn : Nat
  refcount : Nat
  order : Nat
  flags : frame_flags
deriving DecidableEq, Repr

/-! ## Macros -/

/-- The macro `#define ORDER_TO_SIZE(order) (PAGE_SIZE << (order))`. -/
def ORDER_TO_SIZE (PAGE_SIZE order : Nat) : Nat := shl64 PAGE_SIZE order

/-- The macro `#define FIRST_FRAME_SIBLING(mfn, order) ((mfn) % (1UL << (order)) == 0)`. -/
def FIRST_FRAME_SIBLING (mfn order : Nat) : Bool := mfn % shl64 1 order == 0

/-- The macro `#define NEXT_MFN(mfn, order) ((mfn) + (1UL << (order)))`. -/
def NEXT_MFN (mfn order : Nat) : Nat := add64 mfn (shl64 1 order)

/-- The macro `#define PREV_MFN(mfn, order) ((mfn) - (1UL << (order)))`. -/
def PREV_MFN (mfn order : Nat) : Nat := sub64 mfn (shl64 1 order)

/-! ## Static inline functions -/

/-- The function `frame_has_paddr`: `false` for a `NULL` frame, otherwise
`pa >= start_pa && pa <= end_pa` with `start_pa = mfn_to_paddr(frame->mfn)` and
`end_pa = start_pa + ORDER_TO_SIZE(frame->order) - 1`, all of type `paddr_t`. -/
def frame_has_paddr (PAGE_SIZE : Nat) (mfn_to_paddr : Nat → Nat)
    (frame : Option frame) (pa : Nat) : Bool :=
  match frame with
  | none => false
  | some f =>
    let start_pa := mfn_to_paddr f.mfn % 2 ^ 64
    let end_pa := sub64 (add64 start_pa (ORDER_TO_SIZE PAGE_SIZE f.order)) 1
    decide (pa ≥ start_pa) && decide (pa ≤ end_pa)

/-- The function `is_frame_used`: `frame && frame->refcount > 0`. -/
def is_frame_used (frame : Option frame) : Bool :=
  match frame with
  | none => false
  | some f => decide (f.refcount > 0)

/-- The function `is_frame_free`: `false` for a used frame, otherwise `frame->flags.free`;
with a `NULL` frame the second read goes through the null pointer (`none`). -/
def is_frame_free (frame : Option frame) : Option Bool :=
  if is_frame_used frame then some false
  else
    match frame with
    | none => none
    | some f => some f.flags.free

/-- The call `list_is_empty(&frames[order])` with the array `frames` as a list of buckets;
`none` is a read outside the array. -/
def bucket_is_empty (frames : List (List frame)) (order : Nat) : Option Bool :=
  match frames[order]? with
  | none => none
  | some bucket => some bucket.isEmpty

/-- The function `has_frames`: `!(order > MAX_PAGE_ORDER || list_is_empty(&frames[order]))`;
the right operand of `||` is evaluated only when the left one is false. -/
def has_frames (MAX_PAGE_ORDER : Nat) (frames : List (List frame)) (order : Nat) :
    Option Bool :=
  if order > MAX_PAGE_ORDER then some (!true)
  else
    match bucket_is_empty frames order with
    | none => none
    | some e => some (!e)

/-- The call `list_first_entry(&frames[order], frame_t, list)`; `none` is a read outside
the array or the entry of an empty list, which is no frame at all. -/
def list_first_entry (frames : List (List frame)) (order : Nat) : Option frame :=
  match frames[order]? with
  | none => none
  | some bucket => bucket.head?

/-- The function `get_first_frame`: `NULL` (`some none`) when `has_frames` is false,
otherwise the first entry of the bucket; the outer `none` is an invalid access. -/
def get_first_frame (MAX_PAGE_ORDER : Nat) (frames : List (List frame)) (order : Nat) :
    Option (Option frame) :=
  match has_frames MAX_PAGE_ORDER frames order with
  | none => none
  | some false => some none
  | some true =>
    match list_first_entry frames order with
    | none => none
    | some f => some (some f)

/-! ## The allocation engine, from the specification

`get_free_frames` is declared `extern` in `pmm.h`; its body is not part of the header. -/

/-- Modelled from the spec: the glossary entry `order`, a block of order K spans the
`2 ^ K` pages that start at its mfn. `pmm.h` has the test by address only. -/
def frame_has_mfn (f : frame) (m : Nat) : Bool :=
  decide (f.mfn ≤ m) && decide (m < f.mfn + 2 ^ f.order)

/-- Modelled from the spec: `insert(Frame, K)` of section 4.2, the body of which is not in
`pmm.h`: the descriptor goes to the head of the bucket of its order. -/
def free_insert (frames : List (List frame)) (f : frame) : List (List frame) :=
  frames.modify (fun bucket => f :: bucket) f.order

/-- Modelled from the spec: one split of `get_free_frames` (section 4.3, step 2), whose body
is not in `pmm.h`: a block of order K becomes two blocks of order K - 1, the lower half at
the same mfn and the upper half at `NEXT_MFN(mfn, K - 1)`. -/
def split_frame (f : frame) : frame × frame :=
  let lower : frame := { f with order := f.order - 1 }
  let upper : frame := { lower with mfn := NEXT_MFN f.mfn (f.order - 1) }
  (lower, upper)

/-- Modelled from the spec: `n` rounds of the split loop of `get_free_frames` (section 4.3,
step 2): push the upper half on the free list of its order, keep the lower half. -/
def split_steps : Nat → frame → List (List frame) → frame × List (List frame)
  | 0, f, frames => (f, frames)
  | n + 1, f, frames =>
    let halves := split_frame f
    split_steps n halves.1 (free_insert frames halves.2)

/-- Modelled from the spec: the split loop of `get_free_frames` (section 4.3, step 2), run
until the kept block has the requested order. -/
def split_down (order : Nat) (f : frame) (frames : List (List frame)) :
    frame × List (List frame) :=
  split_steps (f.order - order) f frames

/-- Modelled from the spec: "mark busy (`free=false`, `refcount=1`)" of section 4.3, step 1;
the body of `get_free_frames` is not in `pmm.h`. -/
def reserve_frame (f : frame) : frame :=
  { f with refcount := 1, flags := { f.flags with free := false } }

/-- Modelled from the spec: `pop_any(K)` of section 4.2, the body of which is not in
`pmm.h`: the first descriptor leaves the bucket of order `order`. -/
def free_pop (frames : List (List frame)) (order : Nat) : List (List frame) :=
  frames.modify List.tail order

/-- Modelled from the spec: the ascending scan of section 4.3, step 2, for the smallest
order above `order` that has a free block; the body of `get_free_frames` is not in
`pmm.h`. The test of one bucket is `has_frames` of the header. -/
def find_larger_order (MAX_PAGE_ORDER : Nat) (frames : List (List frame)) (order : Nat) :
    Option Nat :=
  ((List.range (MAX_PAGE_ORDER + 1)).filter (fun K => decide (order < K))).find?
    (fun K => has_frames MAX_PAGE_ORDER frames K == some true)

/-- Modelled from the spec: `allocate(order)` of section 4.3, steps 1 and 2; `pmm.h` only
declares `get_free_frames`. Step 1 takes the first frame of the bucket of `order`; step 2
takes the first frame of the smallest larger order that has one and splits it down. The
refill of step 3 is outside the model: `none` is "no free block of any order". -/
def get_free_frames (MAX_PAGE_ORDER : Nat) (frames : List (List frame)) (order : Nat) :
    Option (frame × List (List frame)) :=
  match get_first_frame MAX_PAGE_ORDER frames order with
  | some (some f) => some (reserve_frame f, free_pop frames order)
  | _ =>
    match find_larger_order MAX_PAGE_ORDER frames order with
    | none => none
    | some K =>
      match get_first_frame MAX_PAGE_ORDER frames K with
      | some (some f) =>
        let r := split_down order f (free_pop frames K)
        some (reserve_frame r.1, r.2)
      | _ => none

/-- A free descriptor at `mfn` of order `order`: no reference, only the `free` flag set. -/
def free_frame (mfn order : Nat) : frame :=
  { mfn := mfn, refcount := 0, order := order,
    flags := { uncacheable := false, free := true, pagetable := false } }

/-- A busy descriptor at `mfn` of order `order`: one reference, no flag set. -/
def busy_frame (mfn order : Nat) : frame :=
  { mfn := mfn, refcount := 1, order := order,
    flags := { uncacheable := false, free := false, pagetable := false } }

/-- The free lists of the scenario of section 8: `MAX_ORDER = 3` and a single free block
of order 3 at mfn 0. -/
def scenario_frames : List (List frame) := [[], [], [], [free_frame 0 3]]

/-! ## The reclamation engine, from the specification

`put_free_frames` is declared `extern` in `pmm.h`; its body is not part of the header. -/

/-- Modelled from the spec: the buddy of section 4.4, step 4, "if mfn is aligned to
2^(order+1) the buddy is mfn+2^order, else mfn-2^order", written with the macros of the
header; the body of `put_free_frames` is not in `pmm.h`. -/
def buddy_mfn (mfn order : Nat) : Nat :=
  if FIRST_FRAME_SIBLING mfn (order + 1) = true then NEXT_MFN mfn order
  else PREV_MFN mfn order

/-- Modelled from the spec: one merge of section 4.4, step 4, "merge into one descriptor at
the lower mfn with order+1"; the body of `put_free_frames` is not in `pmm.h`. -/
def merge_frame (f : frame) : frame :=
  { f with mfn := min f.mfn (buddy_mfn f.mfn f.order), order := f.order + 1 }

/-- The three moves of the buddy system on one block: keep the lower half of a split, take
the upper half of a split, merge with the buddy. -/
inductive buddy_op where
  | split_lower
  | split_upper
  | merge
deriving DecidableEq, Repr

/-- Modelled from the spec: one move on a block, with the bounds of the data model
(`order` in `[0, MAX_ORDER]`): a split needs order at least 1 (section 4.3, step 2), a
merge stops when `order + 1` exceeds `MAX_ORDER` (section 4.4, step 4). The bodies of
`get_free_frames` and `put_free_frames` are not in `pmm.h`. -/
def apply_op (MAX_PAGE_ORDER : Nat) (op : buddy_op) (f : frame) : Option frame :=
  match op with
  | buddy_op.split_lower => if 1 ≤ f.order then some (split_frame f).1 else none
  | buddy_op.split_upper => if 1 ≤ f.order then some (split_frame f).2 else none
  | buddy_op.merge => if f.order < MAX_PAGE_ORDER then some (merge_frame f) else none

/-- A sequence of moves, first to last; `none` when a move is not possible. -/
def apply_ops (MAX_PAGE_ORDER : Nat) : List buddy_op → frame → Option frame
  | [], f => some f
  | op :: ops, f =>
    match apply_op MAX_PAGE_ORDER op f with
    | none => none
    | some g => apply_ops MAX_PAGE_ORDER ops g

/-- Modelled from the spec: the page count of the conservation property of section 8, each
block weighted by `2 ^ order`. -/
def total_pages (blocks : List frame) : Nat :=
  (blocks.map (fun f => 2 ^ f.order)).sum

/-- The size in bytes of a list of blocks, each block counted with `ORDER_TO_SIZE`. -/
def total_size (PAGE_SIZE : Nat) (blocks : List frame) : Nat :=
  (blocks.map (fun f => ORDER_TO_SIZE PAGE_SIZE f.order)).sum

/-- The order-1 frame at mfn 3 used to instantiate the address theorems. -/
def sample_frame : frame :=
  { mfn := 3, refcount := 1, order := 1,
    flags := { uncacheable := false, free := false, pagetable := false } }

/-! ## Validity of addresses and frame numbers -/

/-- The function `paddr_invalid`: `pa == PADDR_INVALID || !has_memory_range(pa)`. The
sentinel `PADDR_INVALID` and the predicate `has_memory_range` are declared in headers that
`pmm.h` includes; they are parameters. -/
def paddr_invalid (PADDR_INVALID : Nat) (has_memory_range : Nat → Bool) (pa : Nat) : Bool :=
  decide (pa = PADDR_INVALID) || !has_memory_range pa

/-- The function `mfn_invalid`: `paddr_invalid(mfn_to_paddr(mfn))`, the translated address
being a `paddr_t`. -/
def mfn_invalid (PADDR_INVALID : Nat) (has_memory_range : Nat → Bool)
    (mfn_to_paddr : Nat → Nat) (mfn : Nat) : Bool :=
  paddr_invalid PADDR_INVALID has_memory_range (mfn_to_paddr mfn % 2 ^ 64)

/-! ## Layout of the descriptor table -/

/-- A member of a C structure as `sizeof` sees it: its size and its alignment in bytes. -/
structure member where
  size : Nat
  align : Nat
deriving DecidableEq, Repr

/-- The offset `off` rounded up to a multiple of `a`. -/
def align_up (off a : Nat) : Nat := (off + a - 1) / a * a

/-- The value of `sizeof` for a structure that is not packed: each member sits at the next
multiple of its alignment and the total is rounded up to the largest alignment. -/
def sizeof_struct (members : List member) : Nat :=
  align_up (members.foldl (fun off m => align_up off m.align + m.size) 0)
    (members.foldl (fun a m => max a m.align) 1)

/-- The value of `sizeof` for a `__packed` structure: the members follow each other. -/
def sizeof_packed (members : List member) : Nat :=
  (members.map member.size).sum

/-- A member of type `uint16_t`. -/
def uint16_member : member := { size := 2, align := 2 }

/-- A member of type `uint32_t`. -/
def uint32_member : member := { size := 4, align := 4 }

/-- A member of type `mfn_t`, an `unsigned long`. -/
def mfn_member : member := { size := 8, align := 8 }

/-- The size of `struct frame_flags`: bit-fields of 12 + 1 + 1 + 1 bits in one `uint16_t`. -/
def sizeof_frame_flags : Nat := sizeof_struct [uint16_member]

/-- The size of `struct frame`: `list`, `mfn`, `refcount`, `order`, `flags`. The member
`struct list_head` comes from `list.h`; it is a parameter. -/
def sizeof_frame (list_head : member) : Nat :=
  sizeof_struct [list_head, mfn_member, uint32_member, uint16_member,
    { size := sizeof_frame_flags, align := 2 }]

/-- The size of the packed `struct frames_array_meta`: one `uint32_t`. -/
def sizeof_frames_array_meta : Nat := sizeof_packed [uint32_member]

/-- The length of the array `frames` of `struct frames_array`:
`(PAGE_SIZE - sizeof(frames_array_meta_t)) / sizeof(frame_t)`. -/
def frames_array_slots (PAGE_SIZE : Nat) (list_head : member) : Nat :=
  sub64 PAGE_SIZE sizeof_frames_array_meta / sizeof_frame list_head

/-- The size of a packed `struct frames_array` whose array has `slots` elements: `list`,
`meta`, `frames`. -/
def sizeof_frames_array_of (list_head : member) (slots : Nat) : Nat :=
  sizeof_packed [list_head, { size := sizeof_frames_array_meta, align := 1 },
    { size := slots * sizeof_frame list_head, align := 1 }]

/-- The size of `struct frames_array` as the header declares it. -/
def sizeof_frames_array (PAGE_SIZE : Nat) (list_head : member) : Nat :=
  sizeof_frames_array_of list_head (frames_array_slots PAGE_SIZE list_head)

/-! ## Arithmetic helpers -/

theorem add64_of_lt {a b : Nat} (h : a + b < 2 ^ 64) : add64 a b = a + b := by
  unfold add64; exact Nat.mod_eq_of_lt h

theorem sub64_of_le {a b : Nat} (ha : a < 2 ^ 64) (h : b ≤ a) : sub64 a b = a - b := by
  unfold sub64
  have hb : b < 2 ^ 64 := by omega
  rw [Nat.mod_eq_of_lt ha, Nat.mod_eq_of_lt hb]
  omega

theorem shl64_of_lt {a n : Nat} (h : a * 2 ^ n < 2 ^ 64) : shl64 a n = a * 2 ^ n := by
  unfold shl64; exact Nat.mod_eq_of_lt h

theorem two_pow_lt_word {n : Nat} (h : n < 64) : 2 ^ n < 2 ^ 64 :=
  Nat.pow_lt_pow_right (by decide) h

theorem lt_64_of_two_pow_lt {n : Nat} (h : 2 ^ n < 2 ^ 64) : n < 64 :=
  (Nat.pow_lt_pow_iff_right (by decide)).1 h

theorem shl64_one {n : Nat} (h : n < 64) : shl64 1 n = 2 ^ n := by
  unfold shl64; rw [Nat.one_mul]; exact Nat.mod_eq_of_lt (two_pow_lt_word h)

theorem shl64_one_of_ge {n : Nat} (h : 64 ≤ n) : shl64 1 n = 0 := by
  unfold shl64; rw [Nat.one_mul]
  exact Nat.mod_eq_zero_of_dvd (Nat.pow_dvd_pow 2 h)

theorem FIRST_FRAME_SIBLING_iff {mfn order : Nat} (h : order < 64) :
    FIRST_FRAME_SIBLING mfn order = true ↔ mfn % 2 ^ order = 0 := by
  simp [FIRST_FRAME_SIBLING, shl64_one h]

/-- An `mfn` aligned to `2 ^ n` is, modulo `2 ^ (n + 1)`, either `0` or `2 ^ n`. -/
theorem mod_two_pow_succ_of_aligned {mfn n : Nat} (h : mfn % 2 ^ n = 0) :
    mfn % 2 ^ (n + 1) = 0 ∨ mfn % 2 ^ (n + 1) = 2 ^ n := by
  rw [Nat.pow_succ, Nat.mod_mul, h]
  rcases Nat.mod_two_eq_zero_or_one (mfn / 2 ^ n) with h2 | h2 <;> simp [h2]

theorem xor_two_pow_of_aligned_succ (n q : Nat) :
    (2 ^ (n + 1) * q) ^^^ 2 ^ n = 2 ^ (n + 1) * q + 2 ^ n := by
  apply Nat.eq_of_testBit_eq
  intro j
  have hlt : 2 ^ n < 2 ^ (n + 1) := Nat.pow_lt_pow_right (by decide) (Nat.lt_succ_self n)
  rw [Nat.testBit_xor, Nat.testBit_mul_pow_two_add q hlt, Nat.testBit_mul_pow_two,
    Nat.testBit_two_pow]
  by_cases hj : j < n + 1
  · have : ¬ (j ≥ n + 1) := by omega
    simp [hj, this]
  · have h1 : j ≥ n + 1 := by omega
    have h2 : ¬ (n = j) := by omega
    simp [hj, h1, h2]


theorem FIRST_FRAME_SIBLING_iff_of_lt {mfn : Nat} (order : Nat) (hm : mfn < 2 ^ 64) :
    FIRST_FRAME_SIBLING mfn order = true ↔ mfn % 2 ^ order = 0 := by
  by_cases h : order < 64
  · exact FIRST_FRAME_SIBLING_iff h
  · have hge : 64 ≤ order := Nat.le_of_not_lt h
    have hle : 2 ^ 64 ≤ 2 ^ order := Nat.pow_le_pow_right (by decide) hge
    have hlt : mfn < 2 ^ order := Nat.lt_of_lt_of_le hm hle
    simp [FIRST_FRAME_SIBLING, shl64_one_of_ge hge, Nat.mod_eq_of_lt hlt]

theorem NEXT_MFN_eq {mfn order : Nat} (h : mfn + 2 ^ order < 2 ^ 64) :
    NEXT_MFN mfn order = mfn + 2 ^ order := by
  have h2 : 2 ^ order < 2 ^ 64 := by omega
  unfold NEXT_MFN
  rw [shl64_one (lt_64_of_two_pow_lt h2)]
  unfold add64; exact Nat.mod_eq_of_lt h

theorem PREV_MFN_eq {mfn order : Nat} (hm : mfn < 2 ^ 64) (h : 2 ^ order ≤ mfn) :
    PREV_MFN mfn order = mfn - 2 ^ order := by
  have h2 : 2 ^ order < 2 ^ 64 := by omega
  unfold PREV_MFN
  rw [shl64_one (lt_64_of_two_pow_lt h2)]
  unfold sub64
  rw [Nat.mod_eq_of_lt hm, Nat.mod_eq_of_lt h2]
  generalize 2 ^ order = p at h h2 ⊢
  omega

/-! ## Block ranges by physical address -/

/-- C1. For a non-null frame of order at most `MAX_PAGE_ORDER` whose block does not wrap
the address space, `frame_has_paddr` holds exactly for the addresses `pa` with
`start ≤ pa < start + PAGE_SIZE * 2 ^ order`, `start` being the translated start address;
for the null frame it is false for every address. -/
theorem frame_has_paddr_iff_in_block (PAGE_SIZE MAX_PAGE_ORDER : Nat)
    (mfn_to_paddr : Nat → Nat) (f : frame) (pa : Nat)
    (hpage : 0 < PAGE_SIZE)
    (_hord : f.order ≤ MAX_PAGE_ORDER)
    (hwrap : mfn_to_paddr f.mfn % 2 ^ 64 + PAGE_SIZE * 2 ^ f.order ≤ 2 ^ 64) :
    (frame_has_paddr PAGE_SIZE mfn_to_paddr (some f) pa = true ↔
      mfn_to_paddr f.mfn % 2 ^ 64 ≤ pa ∧
        pa < mfn_to_paddr f.mfn % 2 ^ 64 + PAGE_SIZE * 2 ^ f.order) ∧
    (∀ pa', frame_has_paddr PAGE_SIZE mfn_to_paddr none pa' = false) := by
  refine ⟨?_, fun _ => rfl⟩
  have hsz : 0 < PAGE_SIZE * 2 ^ f.order := Nat.mul_pos hpage (Nat.two_pow_pos _)
  simp only [frame_has_paddr, ORDER_TO_SIZE, shl64, add64, sub64, Bool.and_eq_true,
    decide_eq_true_eq, ge_iff_le]
  generalize mfn_to_paddr f.mfn % 2 ^ 64 = s at hwrap ⊢
  generalize PAGE_SIZE * 2 ^ f.order = z at hwrap hsz ⊢
  omega

/-- C1 at `PAGE_SIZE = 4096`, `MAX_PAGE_ORDER = 18`, `mfn_to_paddr m = m * 4096`, the order-1
frame at mfn 3 and the address `0x3005`. -/
theorem frame_has_paddr_iff_in_block_witness :
    (0 < 4096 ∧ sample_frame.order ≤ 18 ∧
      (fun m => m * 4096) sample_frame.mfn % 2 ^ 64 + 4096 * 2 ^ sample_frame.order ≤ 2 ^ 64) ∧
    frame_has_paddr 4096 (fun m => m * 4096) (some sample_frame) 12293 = true :=
  ⟨⟨by decide, by decide, by decide⟩,
    (frame_has_paddr_iff_in_block 4096 18 (fun m => m * 4096) sample_frame 12293
      (by decide) (by decide) (by decide)).1.2 ⟨by decide, by decide⟩⟩

/-! ## The buddy of a block -/

/-- C2. For an mfn that is a multiple of `2 ^ order`, with `mfn + 2 ^ order` representable,
`mfn XOR 2 ^ order` is the buddy the macros compute: `NEXT_MFN(mfn, order)` when
`FIRST_FRAME_SIBLING(mfn, order + 1)` holds and `PREV_MFN(mfn, order)` otherwise. -/
theorem buddy_xor_eq_macros (mfn order : Nat)
    (hal : mfn % 2 ^ order = 0) (hrep : mfn + 2 ^ order < 2 ^ 64) :
    mfn ^^^ 2 ^ order =
      if FIRST_FRAME_SIBLING mfn (order + 1) = true then NEXT_MFN mfn order
      else PREV_MFN mfn order := by
  have hm : mfn < 2 ^ 64 := by omega
  have hdiv := Nat.div_add_mod mfn (2 ^ (order + 1))
  rcases mod_two_pow_succ_of_aligned hal with h0 | h1
  · rw [if_pos ((FIRST_FRAME_SIBLING_iff_of_lt (order + 1) hm).2 h0), NEXT_MFN_eq hrep]
    rw [h0, Nat.add_zero] at hdiv
    rw [← hdiv]
    exact xor_two_pow_of_aligned_succ order _
  · have hp : 0 < 2 ^ order := Nat.two_pow_pos order
    have hff : ¬ FIRST_FRAME_SIBLING mfn (order + 1) = true := by
      rw [FIRST_FRAME_SIBLING_iff_of_lt (order + 1) hm, h1]; omega
    have hge : 2 ^ order ≤ mfn := by rw [← h1]; exact Nat.mod_le _ _
    rw [if_neg hff, PREV_MFN_eq hm hge]
    rw [h1] at hdiv
    rw [← hdiv, ← xor_two_pow_of_aligned_succ order _, Nat.xor_assoc, Nat.xor_self,
      Nat.xor_zero, xor_two_pow_of_aligned_succ order _]
    omega


/-- C2 at mfn 12 and order 2: the buddy is `PREV_MFN(12, 2) = 8`. -/
theorem buddy_xor_eq_macros_witness :
    (12 % 2 ^ 2 = 0 ∧ 12 + 2 ^ 2 < 2 ^ 64) ∧
    12 ^^^ 2 ^ 2 =
      if FIRST_FRAME_SIBLING 12 (2 + 1) = true then NEXT_MFN 12 2 else PREV_MFN 12 2 :=
  ⟨⟨by decide, by decide⟩, buddy_xor_eq_macros 12 2 (by decide) (by decide)⟩

/-! ## Splitting -/

/-- The free descriptor that the split loop leaves at order `j`. -/
theorem split_steps_spec (n : Nat) : ∀ (f : frame) (frames : List (List frame)),
    n ≤ f.order →
    (split_steps n f frames).1 = { f with order := f.order - n } ∧
    ∀ j, (split_steps n f frames).2[j]? =
      if f.order - n ≤ j ∧ j < f.order then
        (frames[j]?).map (fun b => ({ f with mfn := NEXT_MFN f.mfn j, order := j } : frame) :: b)
      else frames[j]? := by
  induction n with
  | zero =>
    intro f frames _
    refine ⟨rfl, fun j => ?_⟩
    have hj : ¬ (f.order - 0 ≤ j ∧ j < f.order) := by omega
    rw [if_neg hj]
    rfl
  | succ n ih =>
    intro f frames hn
    have hlow : n ≤ (split_frame f).1.order := by simp [split_frame]; omega
    obtain ⟨h1, h2⟩ := ih (split_frame f).1 (free_insert frames (split_frame f).2) hlow
    refine ⟨?_, fun j => ?_⟩
    · show (split_steps n (split_frame f).1 _).1 = _
      rw [h1]
      simp only [split_frame]
      congr 1
      omega
    · show (split_steps n (split_frame f).1 _).2[j]? = _
      rw [h2 j]
      simp only [split_frame, free_insert, List.getElem?_modify]
      by_cases hj1 : f.order - 1 - n ≤ j ∧ j < f.order - 1
      · have hj2 : f.order - (n + 1) ≤ j ∧ j < f.order := by omega
        have hne : ¬ (f.order - 1 = j) := by omega
        rw [if_pos hj1, if_pos hj2]
        cases frames[j]? <;> simp [hne]
      · rw [if_neg hj1]
        by_cases hj3 : f.order - 1 = j
        · have hj2 : f.order - (n + 1) ≤ j ∧ j < f.order := by omega
          rw [if_pos hj2]
          subst hj3
          cases frames[f.order - 1]? <;> simp
        · have hj2 : ¬ (f.order - (n + 1) ≤ j ∧ j < f.order) := by omega
          rw [if_neg hj2]
          cases frames[j]? <;> simp [hj3]

theorem aligned_add_le {mfn K : Nat} (hK : K ≤ 64) (hal : mfn % 2 ^ K = 0)
    (hm : mfn < 2 ^ 64) : mfn + 2 ^ K ≤ 2 ^ 64 := by
  obtain ⟨q, hq⟩ := Nat.dvd_of_mod_eq_zero hal
  have h64 : 2 ^ 64 = 2 ^ K * 2 ^ (64 - K) := by
    rw [← Nat.pow_add]; congr 1; omega
  rw [h64] at hm ⊢
  subst hq
  have hq1 : q < 2 ^ (64 - K) := Nat.lt_of_mul_lt_mul_left hm
  calc 2 ^ K * q + 2 ^ K = 2 ^ K * (q + 1) := by ring
    _ ≤ 2 ^ K * 2 ^ (64 - K) := Nat.mul_le_mul_left _ hq1

theorem range_split (a k m : Nat) : ∀ K, k ≤ K →
    ((a ≤ m ∧ m < a + 2 ^ K) ↔
      (a ≤ m ∧ m < a + 2 ^ k) ∨
        ∃ j, k ≤ j ∧ j < K ∧ a + 2 ^ j ≤ m ∧ m < a + 2 ^ j + 2 ^ j) := by
  intro K hK
  induction K, hK using Nat.le_induction with
  | base =>
    constructor
    · intro h; exact Or.inl h
    · rintro (h | ⟨j, h1, h2, _⟩)
      · exact h
      · omega
  | succ K hk ih =>
    have hp : 2 ^ (K + 1) = 2 ^ K + 2 ^ K := by rw [Nat.pow_succ]; omega
    rw [hp]
    constructor
    · rintro ⟨h1, h2⟩
      by_cases hlt : m < a + 2 ^ K
      · rcases ih.1 ⟨h1, hlt⟩ with h | ⟨j, hj1, hj2, hj3⟩
        · exact Or.inl h
        · exact Or.inr ⟨j, hj1, by omega, hj3⟩
      · exact Or.inr ⟨K, hk, by omega, by omega, by omega⟩
    · rintro (h | ⟨j, hj1, hj2, hj3, hj4⟩)
      · have := (ih.2 (Or.inl h)); omega
      · by_cases hjK : j = K
        · subst hjK; omega
        · have := ih.2 (Or.inr ⟨j, hj1, by omega, hj3, hj4⟩); omega

theorem two_pow_double_le {i j : Nat} (h : i < j) : 2 ^ i + 2 ^ i ≤ 2 ^ j := by
  have h1 : 2 ^ (i + 1) ≤ 2 ^ j := Nat.pow_le_pow_right (by decide) h
  rw [Nat.pow_succ] at h1
  omega

/-- C3. Splitting an aligned block `(mfn, K)` down to order `k < K` returns the block
`(mfn, k)` and leaves, on free lists that were empty, exactly one free block for each order
`j` in `[k, K - 1]`, at `mfn + 2 ^ j`; the returned block and the free blocks are pairwise
disjoint and together cover exactly the mfn range `[mfn, mfn + 2 ^ K)`. -/
theorem split_down_partition (MAX_PAGE_ORDER K k mfn rc : Nat) (fl : frame_flags)
    (hmax : MAX_PAGE_ORDER < 64) (hK : K ≤ MAX_PAGE_ORDER) (hk : k < K)
    (hal : mfn % 2 ^ K = 0) (hm : mfn < 2 ^ 64) :
    (split_down k ⟨mfn, rc, K, fl⟩ (List.replicate (MAX_PAGE_ORDER + 1) [])).1
      = ⟨mfn, rc, k, fl⟩ ∧
    (∀ j, j ≤ MAX_PAGE_ORDER →
      (split_down k ⟨mfn, rc, K, fl⟩ (List.replicate (MAX_PAGE_ORDER + 1) [])).2[j]? =
        some (if k ≤ j ∧ j < K then [⟨mfn + 2 ^ j, rc, j, fl⟩] else [])) ∧
    List.Pairwise
      (fun a b => ∀ m, ¬ (frame_has_mfn a m = true ∧ frame_has_mfn b m = true))
      ((split_down k ⟨mfn, rc, K, fl⟩ (List.replicate (MAX_PAGE_ORDER + 1) [])).1 ::
        (split_down k ⟨mfn, rc, K, fl⟩ (List.replicate (MAX_PAGE_ORDER + 1) [])).2.flatten) ∧
    ∀ m, (mfn ≤ m ∧ m < mfn + 2 ^ K) ↔
      ∃ b ∈ (split_down k ⟨mfn, rc, K, fl⟩ (List.replicate (MAX_PAGE_ORDER + 1) [])).1 ::
          (split_down k ⟨mfn, rc, K, fl⟩ (List.replicate (MAX_PAGE_ORDER + 1) [])).2.flatten,
        frame_has_mfn b m = true := by
  obtain ⟨h1, h2⟩ := split_steps_spec (K - k) ⟨mfn, rc, K, fl⟩
    (List.replicate (MAX_PAGE_ORDER + 1) []) (Nat.sub_le K k)
  have hKk : K - (K - k) = k := by omega
  have hsum : mfn + 2 ^ K ≤ 2 ^ 64 := aligned_add_le (by omega) hal hm
  have hnext : ∀ j, j < K → NEXT_MFN mfn j = mfn + 2 ^ j := by
    intro j hj
    have := two_pow_double_le hj
    have hp : 0 < 2 ^ j := Nat.two_pow_pos j
    exact NEXT_MFN_eq (by omega)
  generalize hr : split_down k ⟨mfn, rc, K, fl⟩ (List.replicate (MAX_PAGE_ORDER + 1) []) = r
  have hr1 : r.1 = ⟨mfn, rc, k, fl⟩ := by
    rw [← hr]; unfold split_down; rw [h1]; simp only [hKk]
  have hL : ∀ j, r.2[j]? =
      if j ≤ MAX_PAGE_ORDER then
        some (if k ≤ j ∧ j < K then [(⟨mfn + 2 ^ j, rc, j, fl⟩ : frame)] else [])
      else none := by
    intro j
    rw [← hr]; unfold split_down; rw [h2 j, List.getElem?_replicate]
    simp only [hKk]
    by_cases hj : k ≤ j ∧ j < K
    · have hjm : j ≤ MAX_PAGE_ORDER := by omega
      have hjm1 : j < MAX_PAGE_ORDER + 1 := by omega
      simp [hj, hjm, hjm1, hnext j hj.2]
    · by_cases hjm : j ≤ MAX_PAGE_ORDER
      · have hjm1 : j < MAX_PAGE_ORDER + 1 := by omega
        simp [hj, hjm, hjm1]
      · have hjm1 : ¬ j < MAX_PAGE_ORDER + 1 := by omega
        simp [hj, hjm, hjm1]
  have hbucket : ∀ j l b, r.2[j]? = some l → b ∈ l →
      (k ≤ j ∧ j < K) ∧ l = [(⟨mfn + 2 ^ j, rc, j, fl⟩ : frame)] ∧
        b = (⟨mfn + 2 ^ j, rc, j, fl⟩ : frame) := by
    intro j l b hjl hb
    rw [hL j] at hjl
    by_cases hjm : j ≤ MAX_PAGE_ORDER
    · rw [if_pos hjm] at hjl
      by_cases hj : k ≤ j ∧ j < K
      · rw [if_pos hj] at hjl
        have hl := Option.some.inj hjl
        subst hl
        exact ⟨hj, rfl, List.mem_singleton.1 hb⟩
      · rw [if_neg hj] at hjl
        have hl := Option.some.inj hjl
        subst hl
        exact absurd hb (List.not_mem_nil _)
    · rw [if_neg hjm] at hjl
      exact absurd hjl (by simp)
  have hmem : ∀ b, b ∈ r.2.flatten ↔
      ∃ j, k ≤ j ∧ j < K ∧ b = (⟨mfn + 2 ^ j, rc, j, fl⟩ : frame) := by
    intro b
    constructor
    · intro hb
      obtain ⟨l, hl, hbl⟩ := List.mem_flatten.1 hb
      obtain ⟨j, hj⟩ := List.mem_iff_getElem?.1 hl
      obtain ⟨hjr, _, hbj⟩ := hbucket j l b hj hbl
      exact ⟨j, hjr.1, hjr.2, hbj⟩
    · rintro ⟨j, hj1, hj2, hb⟩
      have hjm : j ≤ MAX_PAGE_ORDER := by omega
      have hj : r.2[j]? = some [(⟨mfn + 2 ^ j, rc, j, fl⟩ : frame)] := by
        rw [hL j, if_pos hjm, if_pos ⟨hj1, hj2⟩]
      exact List.mem_flatten.2 ⟨_, List.mem_iff_getElem?.2 ⟨j, hj⟩, by rw [hb]; simp⟩
  refine ⟨hr1, ?_, ?_, ?_⟩
  · intro j hj
    rw [hL j, if_pos hj]
  · rw [List.pairwise_cons]
    refine ⟨?_, ?_⟩
    · intro b hb m
      obtain ⟨j, hj1, hj2, hbj⟩ := (hmem b).1 hb
      have hp : 2 ^ k ≤ 2 ^ j := Nat.pow_le_pow_right (by decide) hj1
      rw [hr1, hbj]
      simp only [frame_has_mfn, Bool.and_eq_true, decide_eq_true_eq]
      omega
    · rw [List.pairwise_flatten]
      refine ⟨?_, ?_⟩
      · intro l hl
        obtain ⟨j, hj⟩ := List.mem_iff_getElem?.1 hl
        rw [hL j] at hj
        by_cases hjm : j ≤ MAX_PAGE_ORDER
        · rw [if_pos hjm] at hj
          have hl2 := (Option.some.inj hj).symm
          by_cases hjr : k ≤ j ∧ j < K
          · rw [if_pos hjr] at hl2
            rw [hl2]; exact List.pairwise_singleton _ _
          · rw [if_neg hjr] at hl2
            rw [hl2]; exact List.Pairwise.nil
        · rw [if_neg hjm] at hj
          exact absurd hj (by simp)
      · rw [List.pairwise_iff_getElem]
        intro i j hi hj hij x hx y hy m
        obtain ⟨hir, _, hxi⟩ := hbucket i _ x (List.getElem?_eq_getElem hi) hx
        obtain ⟨hjr, _, hyj⟩ := hbucket j _ y (List.getElem?_eq_getElem hj) hy
        have hp := two_pow_double_le hij
        rw [hxi, hyj]
        simp only [frame_has_mfn, Bool.and_eq_true, decide_eq_true_eq]
        omega
  · intro m
    rw [range_split mfn k m K (Nat.le_of_lt hk)]
    constructor
    · rintro (h | ⟨j, hj1, hj2, hj3, hj4⟩)
      · refine ⟨r.1, List.mem_cons_self _ _, ?_⟩
        rw [hr1]
        simp only [frame_has_mfn, Bool.and_eq_true, decide_eq_true_eq]
        exact h
      · refine ⟨⟨mfn + 2 ^ j, rc, j, fl⟩,
          List.mem_cons_of_mem _ ((hmem _).2 ⟨j, hj1, hj2, rfl⟩), ?_⟩
        simp only [frame_has_mfn, Bool.and_eq_true, decide_eq_true_eq]
        exact ⟨hj3, hj4⟩
    · rintro ⟨b, hb, hbm⟩
      rcases List.mem_cons.1 hb with hb1 | hb2
      · left
        rw [hb1, hr1] at hbm
        simpa only [frame_has_mfn, Bool.and_eq_true, decide_eq_true_eq] using hbm
      · right
        obtain ⟨j, hj1, hj2, hbj⟩ := (hmem b).1 hb2
        rw [hbj] at hbm
        simp only [frame_has_mfn, Bool.and_eq_true, decide_eq_true_eq] at hbm
        exact ⟨j, hj1, hj2, hbm.1, hbm.2⟩

/-- C3 at `MAX_PAGE_ORDER = 18`: the block `(8, 3)` split down to order 0 returns `(8, 0)`. -/
theorem split_down_partition_witness :
    (18 < 64 ∧ 3 ≤ 18 ∧ 0 < 3 ∧ 8 % 2 ^ 3 = 0 ∧ 8 < 2 ^ 64) ∧
    (split_down 0 ⟨8, 0, 3, ⟨false, true, false⟩⟩ (List.replicate (18 + 1) [])).1
      = ⟨8, 0, 0, ⟨false, true, false⟩⟩ :=
  ⟨⟨by decide, by decide, by decide, by decide, by decide⟩,
    (split_down_partition 18 3 0 8 0 ⟨false, true, false⟩
      (by decide) (by decide) (by decide) (by decide) (by decide)).1⟩

/-! ## The scenario of section 8 -/

/-- C4, as the claim states it, fails: in the scenario the first `allocate(0)` does not
leave free blocks at mfn 8 (order 2), mfn 4 (order 1) and mfn 2 (order 0) together with a
second `allocate(0)` that returns mfn 1. -/
theorem scenario_split_pattern_counterexample :
    ¬ ∃ f1 fr1, get_free_frames 3 scenario_frames 0 = some (f1, fr1) ∧
        f1 = busy_frame 0 0 ∧
        (∃ b ∈ fr1.getD 2 [], b.mfn = 8 ∧ b.order = 2 ∧ b.flags.free = true) ∧
        (∃ b ∈ fr1.getD 1 [], b.mfn = 4 ∧ b.order = 1 ∧ b.flags.free = true) ∧
        (∃ b ∈ fr1.getD 0 [], b.mfn = 2 ∧ b.order = 0 ∧ b.flags.free = true) ∧
        ∃ f2 fr2, get_free_frames 3 fr1 0 = some (f2, fr2) ∧ f2.mfn = 1 ∧
          ∀ j, 1 ≤ j → fr2.getD j [] = fr1.getD j [] := by
  rintro ⟨f1, fr1, h, _, ⟨b, hb, hb8, _, _⟩, _⟩
  have hv : get_free_frames 3 scenario_frames 0 =
      some (busy_frame 0 0, [[free_frame 1 0], [free_frame 2 1], [free_frame 4 2], []]) := by
    decide
  rw [hv] at h
  have hfr : fr1 = [[free_frame 1 0], [free_frame 2 1], [free_frame 4 2], []] :=
    (congrArg Prod.snd (Option.some.inj h)).symm
  subst hfr
  have hb4 : b = free_frame 4 2 := by simpa using hb
  rw [hb4] at hb8
  exact absurd hb8 (by decide)

/-- C4, amended: in the scenario the first `allocate(0)` returns the busy order-0 frame at
mfn 0 and leaves a free order-2 block at mfn 4, a free order-1 block at mfn 2 and a free
order-0 block at mfn 1; the second `allocate(0)` returns mfn 1 and leaves the blocks of
orders 1 and 2 as they are. -/
theorem scenario_split_pattern :
    get_free_frames 3 scenario_frames 0 =
      some (busy_frame 0 0, [[free_frame 1 0], [free_frame 2 1], [free_frame 4 2], []]) ∧
    get_free_frames 3 [[free_frame 1 0], [free_frame 2 1], [free_frame 4 2], []] 0 =
      some (busy_frame 1 0, [[], [free_frame 2 1], [free_frame 4 2], []]) := by
  decide

/-! ## Buddies and their addresses -/

/-- The buddy that the macros select for an aligned block, by cases on the alignment of
`mfn` at the next order. -/
theorem buddy_cases {mfn K : Nat} (hK : K < 64) (hal : mfn % 2 ^ K = 0) (hm : mfn < 2 ^ 64) :
    (mfn % 2 ^ (K + 1) = 0 ∧ FIRST_FRAME_SIBLING mfn (K + 1) = true ∧
      NEXT_MFN mfn K = mfn + 2 ^ K ∧ mfn + 2 ^ K < 2 ^ 64) ∨
    (mfn % 2 ^ (K + 1) = 2 ^ K ∧ FIRST_FRAME_SIBLING mfn (K + 1) = false ∧
      PREV_MFN mfn K + 2 ^ K = mfn ∧ PREV_MFN mfn K % 2 ^ (K + 1) = 0) := by
  have hp : 0 < 2 ^ K := Nat.two_pow_pos K
  rcases mod_two_pow_succ_of_aligned hal with h0 | h1
  · left
    have hsum := aligned_add_le (Nat.succ_le_of_lt hK) h0 hm
    have hlt : mfn + 2 ^ K < 2 ^ 64 := by
      rw [Nat.pow_succ] at hsum; omega
    exact ⟨h0, (FIRST_FRAME_SIBLING_iff_of_lt (K + 1) hm).2 h0, NEXT_MFN_eq hlt, hlt⟩
  · right
    have hge : 2 ^ K ≤ mfn := by rw [← h1]; exact Nat.mod_le _ _
    have hff : FIRST_FRAME_SIBLING mfn (K + 1) = false := by
      rw [← Bool.not_eq_true, FIRST_FRAME_SIBLING_iff_of_lt (K + 1) hm, h1]; omega
    have hprev := PREV_MFN_eq hm hge
    refine ⟨h1, hff, by rw [hprev]; omega, ?_⟩
    rw [hprev]
    have hdiv := Nat.div_add_mod mfn (2 ^ (K + 1))
    rw [h1] at hdiv
    have hsub : mfn - 2 ^ K = 2 ^ (K + 1) * (mfn / 2 ^ (K + 1)) := by omega
    rw [hsub]
    exact Nat.mul_mod_right _ _

/-- With `PAGE_SIZE = 2 ^ s`, the translated start of the block aligned at order `K + 1`
leaves room for the whole block, and the upper half starts one half further. -/
theorem start_upper {lo K s : Nat} (hlo : lo % 2 ^ (K + 1) = 0) (h : s + K + 1 ≤ 64) :
    (lo * 2 ^ s) % 2 ^ 64 + 2 * 2 ^ (s + K) ≤ 2 ^ 64 ∧
    ((lo + 2 ^ K) * 2 ^ s) % 2 ^ 64 = (lo * 2 ^ s) % 2 ^ 64 + 2 ^ (s + K) := by
  obtain ⟨q, hq⟩ := Nat.dvd_of_mod_eq_zero hlo
  have h64 : 2 ^ 64 = 2 ^ (s + K + 1) * 2 ^ (64 - (s + K + 1)) := by
    rw [← Nat.pow_add]; congr 1; omega
  have hA : 2 ^ (s + K + 1) = 2 * 2 ^ (s + K) := by rw [Nat.pow_succ]; omega
  have hlo2 : lo * 2 ^ s = 2 ^ (s + K + 1) * q := by
    rw [hq]; ring
  have hpos : 0 < 2 ^ (64 - (s + K + 1)) := Nat.two_pow_pos _
  have hmod : (lo * 2 ^ s) % 2 ^ 64 = 2 ^ (s + K + 1) * (q % 2 ^ (64 - (s + K + 1))) := by
    rw [hlo2, h64, Nat.mul_mod_mul_left]
  have hr : q % 2 ^ (64 - (s + K + 1)) < 2 ^ (64 - (s + K + 1)) := Nat.mod_lt _ hpos
  have hroom : (lo * 2 ^ s) % 2 ^ 64 + 2 * 2 ^ (s + K) ≤ 2 ^ 64 := by
    rw [hmod, ← hA]
    calc 2 ^ (s + K + 1) * (q % 2 ^ (64 - (s + K + 1))) + 2 ^ (s + K + 1)
        = 2 ^ (s + K + 1) * (q % 2 ^ (64 - (s + K + 1)) + 1) := by ring
      _ ≤ 2 ^ (s + K + 1) * 2 ^ (64 - (s + K + 1)) := Nat.mul_le_mul_left _ hr
      _ = 2 ^ 64 := h64.symm
  refine ⟨hroom, ?_⟩
  have hp : 0 < 2 ^ (s + K) := Nat.two_pow_pos _
  have hsplit : (lo + 2 ^ K) * 2 ^ s = lo * 2 ^ s + 2 ^ (s + K) := by
    ring
  rw [hsplit, Nat.add_mod, Nat.mod_eq_of_lt (a := 2 ^ (s + K)) (by omega)]
  exact Nat.mod_eq_of_lt (by omega)

/-- C5. With `mfn_to_paddr(m) = m * PAGE_SIZE`, the frame of order `K + 1` at the lower of
an aligned `mfn` and its buddy contains an address exactly when one of the two order-`K`
frames does, and the two order-`K` frames share no address. `PAGE_SIZE` is taken to be a
power of two whose largest block fits in 64 bits. -/
theorem merged_frame_covers_buddies (PAGE_SIZE MAX_PAGE_ORDER s K mfn pa : Nat)
    (rc rc1 rc2 : Nat) (fl fl1 fl2 : frame_flags)
    (hps : PAGE_SIZE = 2 ^ s) (hfit : s + MAX_PAGE_ORDER < 64)
    (hK : K < MAX_PAGE_ORDER) (hal : mfn % 2 ^ K = 0) (hm : mfn < 2 ^ 64) :
    (frame_has_paddr PAGE_SIZE (fun m => m * PAGE_SIZE)
        (some ⟨min mfn (buddy_mfn mfn K), rc, K + 1, fl⟩) pa = true ↔
      frame_has_paddr PAGE_SIZE (fun m => m * PAGE_SIZE) (some ⟨mfn, rc1, K, fl1⟩) pa = true ∨
      frame_has_paddr PAGE_SIZE (fun m => m * PAGE_SIZE)
        (some ⟨buddy_mfn mfn K, rc2, K, fl2⟩) pa = true) ∧
    ¬ (frame_has_paddr PAGE_SIZE (fun m => m * PAGE_SIZE) (some ⟨mfn, rc1, K, fl1⟩) pa = true ∧
      frame_has_paddr PAGE_SIZE (fun m => m * PAGE_SIZE)
        (some ⟨buddy_mfn mfn K, rc2, K, fl2⟩) pa = true) := by
  subst hps
  have hz1 : 2 ^ s * 2 ^ K = 2 ^ (s + K) := (Nat.pow_add 2 s K).symm
  have hz2 : 2 ^ s * 2 ^ (K + 1) = 2 * 2 ^ (s + K) := by rw [Nat.pow_succ, ← hz1]; ring
  have hp : 0 < 2 ^ (s + K) := Nat.two_pow_pos _
  have hpK : 0 < 2 ^ K := Nat.two_pow_pos _
  rcases buddy_cases (by omega : K < 64) hal hm with ⟨h0, hff, hnext, _⟩ | ⟨_, hff, hprev, hb0⟩
  · obtain ⟨hroom, hup⟩ := start_upper (s := s) h0 (by omega)
    have hmin : min mfn (mfn + 2 ^ K) = mfn := Nat.min_eq_left (Nat.le_add_right _ _)
    simp only [buddy_mfn, hff, if_true, hnext, hmin, frame_has_paddr, ORDER_TO_SIZE, shl64,
      add64, sub64, Bool.and_eq_true, decide_eq_true_eq, ge_iff_le, hz1, hz2, hup]
    generalize (mfn * 2 ^ s) % 2 ^ 64 = S at hroom ⊢
    generalize 2 ^ (s + K) = A at hroom hp ⊢
    omega
  · obtain ⟨hroom, hup⟩ := start_upper (s := s) hb0 (by omega)
    have hbm : buddy_mfn mfn K = PREV_MFN mfn K := by simp [buddy_mfn, hff]
    rw [hbm]
    generalize PREV_MFN mfn K = b at hprev hb0 hroom hup ⊢
    subst hprev
    have hmin : min (b + 2 ^ K) b = b := Nat.min_eq_right (Nat.le_add_right _ _)
    simp only [hmin, frame_has_paddr, ORDER_TO_SIZE, shl64,
      add64, sub64, Bool.and_eq_true, decide_eq_true_eq, ge_iff_le, hz1, hz2, hup]
    generalize (b * 2 ^ s) % 2 ^ 64 = S at hroom ⊢
    generalize 2 ^ (s + K) = A at hroom hp ⊢
    omega

/-- C5 at `PAGE_SIZE = 4096 = 2 ^ 12`, `MAX_PAGE_ORDER = 18`: the order-2 blocks at mfn 12
and at its buddy mfn 8 make up the order-3 block at mfn 8. -/
theorem merged_frame_covers_buddies_witness :
    (4096 = 2 ^ 12 ∧ 12 + 18 < 64 ∧ 2 < 18 ∧ 12 % 2 ^ 2 = 0 ∧ 12 < 2 ^ 64) ∧
    ((frame_has_paddr 4096 (fun m => m * 4096)
        (some ⟨min 12 (buddy_mfn 12 2), 0, 2 + 1, ⟨false, true, false⟩⟩) 40000 = true ↔
      frame_has_paddr 4096 (fun m => m * 4096)
        (some ⟨12, 0, 2, ⟨false, true, false⟩⟩) 40000 = true ∨
      frame_has_paddr 4096 (fun m => m * 4096)
        (some ⟨buddy_mfn 12 2, 0, 2, ⟨false, true, false⟩⟩) 40000 = true) ∧
    ¬ (frame_has_paddr 4096 (fun m => m * 4096)
        (some ⟨12, 0, 2, ⟨false, true, false⟩⟩) 40000 = true ∧
      frame_has_paddr 4096 (fun m => m * 4096)
        (some ⟨buddy_mfn 12 2, 0, 2, ⟨false, true, false⟩⟩) 40000 = true)) :=
  ⟨⟨by decide, by decide, by decide, by decide, by decide⟩,
    merged_frame_covers_buddies 4096 18 12 2 12 40000 0 0 0
      ⟨false, true, false⟩ ⟨false, true, false⟩ ⟨false, true, false⟩
      (by decide) (by decide) (by decide) (by decide) (by decide)⟩

/-! ## Merging undoes splitting -/

theorem NEXT_MFN_lt (mfn order : Nat) : NEXT_MFN mfn order < 2 ^ 64 := by
  unfold NEXT_MFN add64; exact Nat.mod_lt _ (Nat.two_pow_pos 64)

theorem aligned_of_aligned_succ {mfn n : Nat} (h : mfn % 2 ^ (n + 1) = 0) :
    mfn % 2 ^ n = 0 :=
  Nat.mod_eq_zero_of_dvd
    (Nat.dvd_trans (Nat.pow_dvd_pow 2 (Nat.le_succ n)) (Nat.dvd_of_mod_eq_zero h))

theorem upper_half_mod {mfn n : Nat} (h : mfn % 2 ^ (n + 1) = 0) :
    (mfn + 2 ^ n) % 2 ^ (n + 1) = 2 ^ n := by
  have hlt : 2 ^ n < 2 ^ (n + 1) := Nat.pow_lt_pow_right (by decide) (Nat.lt_succ_self n)
  rw [Nat.add_mod, h, Nat.zero_add, Nat.mod_mod, Nat.mod_eq_of_lt hlt]

/-- C6. The two halves of a split of an aligned block `(mfn, K)`, `1 ≤ K ≤ MAX_PAGE_ORDER`,
are each other's buddy at order `K - 1`: the lower half is a first sibling at order `K`
and `NEXT_MFN` leads to the upper half, the upper half is not and `PREV_MFN` leads back;
merging either half gives the block `(mfn, K)` again. -/
theorem split_halves_are_buddies (MAX_PAGE_ORDER K mfn rc : Nat) (fl : frame_flags)
    (hmax : MAX_PAGE_ORDER < 64) (hK1 : 1 ≤ K) (hK : K ≤ MAX_PAGE_ORDER)
    (hal : mfn % 2 ^ K = 0) (hm : mfn < 2 ^ 64) :
    FIRST_FRAME_SIBLING mfn K = true ∧
    FIRST_FRAME_SIBLING (NEXT_MFN mfn (K - 1)) K = false ∧
    PREV_MFN (NEXT_MFN mfn (K - 1)) (K - 1) = mfn ∧
    buddy_mfn mfn (K - 1) = NEXT_MFN mfn (K - 1) ∧
    buddy_mfn (NEXT_MFN mfn (K - 1)) (K - 1) = mfn ∧
    merge_frame (split_frame ⟨mfn, rc, K, fl⟩).1 = ⟨mfn, rc, K, fl⟩ ∧
    merge_frame (split_frame ⟨mfn, rc, K, fl⟩).2 = ⟨mfn, rc, K, fl⟩ := by
  obtain ⟨k, rfl⟩ : ∃ k, K = k + 1 := ⟨K - 1, by omega⟩
  simp only [Nat.add_sub_cancel]
  have hp : 0 < 2 ^ k := Nat.two_pow_pos k
  have hsum := aligned_add_le (by omega : k + 1 ≤ 64) hal hm
  have hlt : mfn + 2 ^ k < 2 ^ 64 := by rw [Nat.pow_succ] at hsum; omega
  have hnext : NEXT_MFN mfn k = mfn + 2 ^ k := NEXT_MFN_eq hlt
  have hlo : FIRST_FRAME_SIBLING mfn (k + 1) = true :=
    (FIRST_FRAME_SIBLING_iff_of_lt (k + 1) hm).2 hal
  have hhi : FIRST_FRAME_SIBLING (mfn + 2 ^ k) (k + 1) = false := by
    rw [← Bool.not_eq_true, FIRST_FRAME_SIBLING_iff_of_lt (k + 1) hlt, upper_half_mod hal]
    omega
  have hprev : PREV_MFN (mfn + 2 ^ k) k = mfn := by
    rw [PREV_MFN_eq hlt (Nat.le_add_left _ _)]; omega
  have hb1 : buddy_mfn mfn k = mfn + 2 ^ k := by simp [buddy_mfn, hlo, hnext]
  have hb2 : buddy_mfn (mfn + 2 ^ k) k = mfn := by simp [buddy_mfn, hhi, hprev]
  rw [hnext]
  refine ⟨hlo, hhi, hprev, hb1, hb2, ?_, ?_⟩
  · simp only [merge_frame, split_frame, Nat.add_sub_cancel, hb1]
    rw [Nat.min_eq_left (Nat.le_add_right _ _)]
  · simp only [merge_frame, split_frame, Nat.add_sub_cancel, hnext, hb2]
    rw [Nat.min_eq_right (Nat.le_add_right _ _)]

/-- C6 at `MAX_PAGE_ORDER = 18`: the halves of the block `(8, 3)` are mfn 8 and mfn 12. -/
theorem split_halves_are_buddies_witness :
    (18 < 64 ∧ 1 ≤ 3 ∧ 3 ≤ 18 ∧ 8 % 2 ^ 3 = 0 ∧ 8 < 2 ^ 64) ∧
    buddy_mfn (NEXT_MFN 8 (3 - 1)) (3 - 1) = 8 :=
  ⟨⟨by decide, by decide, by decide, by decide, by decide⟩,
    (split_halves_are_buddies 18 3 8 0 ⟨false, true, false⟩
      (by decide) (by decide) (by decide) (by decide) (by decide)).2.2.2.2.1⟩

/-! ## Alignment is an invariant of splitting and merging -/

theorem NEXT_MFN_aligned {mfn j : Nat} (h : mfn % 2 ^ j = 0) :
    NEXT_MFN mfn j % 2 ^ j = 0 := by
  unfold NEXT_MFN add64
  by_cases hj : j < 64
  · rw [shl64_one hj, Nat.mod_mod_of_dvd _ (Nat.pow_dvd_pow 2 (Nat.le_of_lt hj)),
      Nat.add_mod, h, Nat.mod_self]
    exact Nat.zero_mod _
  · have hge : 64 ≤ j := Nat.le_of_not_lt hj
    have h64 : mfn % 2 ^ 64 = 0 :=
      Nat.mod_eq_zero_of_dvd
        (Nat.dvd_trans (Nat.pow_dvd_pow 2 hge) (Nat.dvd_of_mod_eq_zero h))
    rw [shl64_one_of_ge hge, Nat.add_zero, h64]
    exact Nat.zero_mod _

theorem min_buddy_aligned {mfn K : Nat} (hK : K < 64) (hal : mfn % 2 ^ K = 0)
    (hm : mfn < 2 ^ 64) :
    min mfn (buddy_mfn mfn K) < 2 ^ 64 ∧ min mfn (buddy_mfn mfn K) % 2 ^ (K + 1) = 0 := by
  have hle : min mfn (buddy_mfn mfn K) < 2 ^ 64 := Nat.lt_of_le_of_lt (Nat.min_le_left _ _) hm
  refine ⟨hle, ?_⟩
  rcases buddy_cases hK hal hm with ⟨h0, hff, hnext, _⟩ | ⟨_, hff, hprev, hb0⟩
  · have hb : buddy_mfn mfn K = mfn + 2 ^ K := by simp [buddy_mfn, hff, hnext]
    rw [hb, Nat.min_eq_left (Nat.le_add_right _ _)]
    exact h0
  · have hb : buddy_mfn mfn K = PREV_MFN mfn K := by simp [buddy_mfn, hff]
    have hle2 : PREV_MFN mfn K ≤ mfn := by omega
    rw [hb, Nat.min_eq_right hle2]
    exact hb0

/-- One move keeps a 64-bit, aligned block 64-bit and aligned. -/
theorem apply_op_aligned (MAX_PAGE_ORDER : Nat) (hmax : MAX_PAGE_ORDER < 64)
    (op : buddy_op) (f g : frame) (hm : f.mfn < 2 ^ 64) (hal : f.mfn % 2 ^ f.order = 0)
    (h : apply_op MAX_PAGE_ORDER op f = some g) :
    g.mfn < 2 ^ 64 ∧ g.mfn % 2 ^ g.order = 0 := by
  cases op with
  | split_lower =>
    simp only [apply_op] at h
    by_cases ho : 1 ≤ f.order
    · rw [if_pos ho] at h
      have hg := (Option.some.inj h).symm
      subst hg
      obtain ⟨k, hk⟩ : ∃ k, f.order = k + 1 := ⟨f.order - 1, by omega⟩
      simp only [split_frame, hk, Nat.add_sub_cancel]
      rw [hk] at hal
      exact ⟨hm, aligned_of_aligned_succ hal⟩
    · rw [if_neg ho] at h; exact absurd h (by simp)
  | split_upper =>
    simp only [apply_op] at h
    by_cases ho : 1 ≤ f.order
    · rw [if_pos ho] at h
      have hg := (Option.some.inj h).symm
      subst hg
      obtain ⟨k, hk⟩ : ∃ k, f.order = k + 1 := ⟨f.order - 1, by omega⟩
      simp only [split_frame, hk, Nat.add_sub_cancel]
      rw [hk] at hal
      exact ⟨NEXT_MFN_lt _ _, NEXT_MFN_aligned (aligned_of_aligned_succ hal)⟩
    · rw [if_neg ho] at h; exact absurd h (by simp)
  | merge =>
    simp only [apply_op] at h
    by_cases ho : f.order < MAX_PAGE_ORDER
    · rw [if_pos ho] at h
      have hg := (Option.some.inj h).symm
      subst hg
      simp only [merge_frame]
      exact min_buddy_aligned (by omega) hal hm
    · rw [if_neg ho] at h; exact absurd h (by simp)

theorem apply_ops_aligned (MAX_PAGE_ORDER : Nat) (hmax : MAX_PAGE_ORDER < 64)
    (ops : List buddy_op) : ∀ (f g : frame), f.mfn < 2 ^ 64 → f.mfn % 2 ^ f.order = 0 →
    apply_ops MAX_PAGE_ORDER ops f = some g → g.mfn < 2 ^ 64 ∧ g.mfn % 2 ^ g.order = 0 := by
  induction ops with
  | nil =>
    intro f g hm hal h
    have hg := (Option.some.inj h).symm
    subst hg
    exact ⟨hm, hal⟩
  | cons op ops ih =>
    intro f g hm hal h
    simp only [apply_ops] at h
    cases hop : apply_op MAX_PAGE_ORDER op f with
    | none => rw [hop] at h; exact absurd h (by simp)
    | some f1 =>
      rw [hop] at h
      obtain ⟨hm1, hal1⟩ := apply_op_aligned MAX_PAGE_ORDER hmax op f f1 hm hal hop
      exact ih f1 g hm1 hal1 h

/-- C7. For a block with `FIRST_FRAME_SIBLING(mfn, K)`: after a split (`K ≥ 1`) both `mfn`
and `NEXT_MFN(mfn, K - 1)` are first siblings at order `K - 1`; after a merge
(`K < MAX_PAGE_ORDER`) the lower of `mfn` and its buddy is a first sibling at order
`K + 1`; hence every block reached by a sequence of splits and merges has
`mfn mod 2 ^ order = 0`. -/
theorem alignment_preserved (MAX_PAGE_ORDER K mfn : Nat)
    (hmax : MAX_PAGE_ORDER < 64) (hm : mfn < 2 ^ 64)
    (hal : FIRST_FRAME_SIBLING mfn K = true) :
    (1 ≤ K → FIRST_FRAME_SIBLING mfn (K - 1) = true ∧
      FIRST_FRAME_SIBLING (NEXT_MFN mfn (K - 1)) (K - 1) = true) ∧
    (K < MAX_PAGE_ORDER → FIRST_FRAME_SIBLING (min mfn (buddy_mfn mfn K)) (K + 1) = true) ∧
    (∀ (ops : List buddy_op) (rc : Nat) (fl : frame_flags) (g : frame),
      apply_ops MAX_PAGE_ORDER ops ⟨mfn, rc, K, fl⟩ = some g →
        g.mfn % 2 ^ g.order = 0 ∧ FIRST_FRAME_SIBLING g.mfn g.order = true) := by
  have hal2 : mfn % 2 ^ K = 0 := (FIRST_FRAME_SIBLING_iff_of_lt K hm).1 hal
  refine ⟨?_, ?_, ?_⟩
  · intro hK1
    obtain ⟨k, rfl⟩ : ∃ k, K = k + 1 := ⟨K - 1, by omega⟩
    simp only [Nat.add_sub_cancel]
    have hk := aligned_of_aligned_succ hal2
    exact ⟨(FIRST_FRAME_SIBLING_iff_of_lt k hm).2 hk,
      (FIRST_FRAME_SIBLING_iff_of_lt k (NEXT_MFN_lt _ _)).2 (NEXT_MFN_aligned hk)⟩
  · intro hK
    obtain ⟨h1, h2⟩ := min_buddy_aligned (by omega : K < 64) hal2 hm
    exact (FIRST_FRAME_SIBLING_iff_of_lt (K + 1) h1).2 h2
  · intro ops rc fl g h
    obtain ⟨h1, h2⟩ := apply_ops_aligned MAX_PAGE_ORDER hmax ops ⟨mfn, rc, K, fl⟩ g hm hal2 h
    exact ⟨h2, (FIRST_FRAME_SIBLING_iff_of_lt g.order h1).2 h2⟩

/-- C7 at `MAX_PAGE_ORDER = 18`: the block `(8, 3)`, split to its upper half `(12, 2)` and
merged back to `(8, 3)`, is aligned. -/
theorem alignment_preserved_witness :
    (18 < 64 ∧ 8 < 2 ^ 64 ∧ FIRST_FRAME_SIBLING 8 3 = true ∧
      apply_ops 18 [buddy_op.split_upper, buddy_op.merge] ⟨8, 0, 3, ⟨false, true, false⟩⟩
        = some ⟨8, 0, 3, ⟨false, true, false⟩⟩) ∧
    ((⟨8, 0, 3, ⟨false, true, false⟩⟩ : frame).mfn %
        2 ^ (⟨8, 0, 3, ⟨false, true, false⟩⟩ : frame).order = 0 ∧
      FIRST_FRAME_SIBLING (⟨8, 0, 3, ⟨false, true, false⟩⟩ : frame).mfn
        (⟨8, 0, 3, ⟨false, true, false⟩⟩ : frame).order = true) :=
  ⟨⟨by decide, by decide, by decide, by decide⟩,
    (alignment_preserved 18 3 8 (by decide) (by decide) (by decide)).2.2
      [buddy_op.split_upper, buddy_op.merge] 0 ⟨false, true, false⟩
      ⟨8, 0, 3, ⟨false, true, false⟩⟩ (by decide)⟩

/-! ## Block sizes and conservation -/

theorem ORDER_TO_SIZE_eq {PAGE_SIZE MAX_PAGE_ORDER order : Nat}
    (hfit : PAGE_SIZE * 2 ^ MAX_PAGE_ORDER < 2 ^ 64) (h : order ≤ MAX_PAGE_ORDER) :
    ORDER_TO_SIZE PAGE_SIZE order = PAGE_SIZE * 2 ^ order := by
  unfold ORDER_TO_SIZE
  apply shl64_of_lt
  exact Nat.lt_of_le_of_lt
    (Nat.mul_le_mul_left _ (Nat.pow_le_pow_right (by decide) h)) hfit

/-- C8. When `PAGE_SIZE << MAX_PAGE_ORDER` fits in 64 bits, `ORDER_TO_SIZE(order)` is
`PAGE_SIZE * 2 ^ order` for every order up to `MAX_PAGE_ORDER` and doubles from one order
to the next; one split step and one merge step keep the number of pages (each block
weighted by `2 ^ order`) and the number of bytes. -/
theorem order_to_size_conserved (PAGE_SIZE MAX_PAGE_ORDER : Nat)
    (hfit : PAGE_SIZE * 2 ^ MAX_PAGE_ORDER < 2 ^ 64) :
    (∀ order, order ≤ MAX_PAGE_ORDER →
      ORDER_TO_SIZE PAGE_SIZE order = PAGE_SIZE * 2 ^ order) ∧
    (∀ order, order < MAX_PAGE_ORDER →
      ORDER_TO_SIZE PAGE_SIZE (order + 1) = 2 * ORDER_TO_SIZE PAGE_SIZE order) ∧
    (∀ f : frame, 1 ≤ f.order → f.order ≤ MAX_PAGE_ORDER →
      total_pages [(split_frame f).1, (split_frame f).2] = total_pages [f] ∧
      total_size PAGE_SIZE [(split_frame f).1, (split_frame f).2]
        = total_size PAGE_SIZE [f]) ∧
    (∀ f : frame, f.order < MAX_PAGE_ORDER →
      total_pages [merge_frame f]
        = total_pages [f, { f with mfn := buddy_mfn f.mfn f.order }] ∧
      total_size PAGE_SIZE [merge_frame f]
        = total_size PAGE_SIZE [f, { f with mfn := buddy_mfn f.mfn f.order }]) := by
  have hdouble : ∀ order, order < MAX_PAGE_ORDER →
      ORDER_TO_SIZE PAGE_SIZE (order + 1) = 2 * ORDER_TO_SIZE PAGE_SIZE order := by
    intro order h
    rw [ORDER_TO_SIZE_eq hfit (Nat.succ_le_of_lt h), ORDER_TO_SIZE_eq hfit (Nat.le_of_lt h),
      Nat.pow_succ]
    ring
  refine ⟨fun order h => ORDER_TO_SIZE_eq hfit h, hdouble, ?_, ?_⟩
  · intro f h1 h2
    obtain ⟨k, hk⟩ : ∃ k, f.order = k + 1 := ⟨f.order - 1, by omega⟩
    have hd := hdouble k (by omega)
    simp only [total_pages, total_size, split_frame, hk, Nat.add_sub_cancel, List.map_cons,
      List.map_nil, List.sum_cons, List.sum_nil, Nat.add_zero, hd, Nat.pow_succ]
    omega
  · intro f h
    have hd := hdouble f.order h
    simp only [total_pages, total_size, merge_frame, List.map_cons,
      List.map_nil, List.sum_cons, List.sum_nil, Nat.add_zero, hd, Nat.pow_succ]
    omega

/-- C8 at `PAGE_SIZE = 4096`, `MAX_PAGE_ORDER = 18`: the largest block has `2 ^ 30` bytes. -/
theorem order_to_size_conserved_witness :
    4096 * 2 ^ 18 < 2 ^ 64 ∧ ORDER_TO_SIZE 4096 18 = 4096 * 2 ^ 18 :=
  ⟨by decide, (order_to_size_conserved 4096 18 (by decide)).1 18 (Nat.le_refl 18)⟩

/-! ## Used and free frames -/

/-- C9. For a non-null frame, `is_frame_used` holds exactly when `refcount > 0`,
`is_frame_free` returns and holds exactly when `refcount = 0` and the `free` flag is set;
the two never hold together, and a frame with `refcount > 0` is not reported free
whatever its `free` flag. -/
theorem used_and_free_exclusive (f : frame) :
    (is_frame_used (some f) = true ↔ f.refcount > 0) ∧
    is_frame_free (some f) = some (decide (f.refcount = 0) && f.flags.free) ∧
    (is_frame_free (some f) = some true ↔ f.refcount = 0 ∧ f.flags.free = true) ∧
    ¬ (is_frame_used (some f) = true ∧ is_frame_free (some f) = some true) ∧
    (f.refcount > 0 → is_frame_free (some f) = some false) := by
  have hval : is_frame_free (some f) = some (decide (f.refcount = 0) && f.flags.free) := by
    by_cases h : f.refcount = 0
    · simp [is_frame_free, is_frame_used, h]
    · have hpos : 0 < f.refcount := Nat.pos_of_ne_zero h
      simp [is_frame_free, is_frame_used, h, hpos]
  have hused : is_frame_used (some f) = true ↔ f.refcount > 0 := by
    simp [is_frame_used]
  refine ⟨hused, hval, ?_, ?_, ?_⟩
  · rw [hval]; simp
  · rw [hval, hused]
    intro h
    have h2 : f.refcount = 0 := by simpa using (And.left (by simpa using h.2))
    omega
  · intro h
    have h0 : ¬ f.refcount = 0 := by omega
    rw [hval]; simp [h0]

/-- C9 at the used order-1 frame at mfn 3, with one reference: never reported free. -/
theorem used_and_free_exclusive_witness :
    sample_frame.refcount > 0 ∧ is_frame_free (some sample_frame) = some false :=
  ⟨by decide, (used_and_free_exclusive sample_frame).2.2.2.2 (by decide)⟩

/-! ## The first frame of a free list -/

/-- C10. On an array of `MAX_PAGE_ORDER + 1` buckets, for every unsigned `order`:
`get_first_frame` and `has_frames` make no access outside the array; `get_first_frame`
returns no frame exactly when `order > MAX_PAGE_ORDER` or the bucket `frames[order]` is
empty, and otherwise the first element of `frames[order]`, so an order out of range is not
clamped to a valid bucket; `has_frames` is true exactly when a frame is returned. -/
theorem get_first_frame_spec (MAX_PAGE_ORDER : Nat) (frames : List (List frame))
    (order : Nat) (hlen : frames.length = MAX_PAGE_ORDER + 1) :
    ∃ r : Option frame,
      get_first_frame MAX_PAGE_ORDER frames order = some r ∧
      has_frames MAX_PAGE_ORDER frames order = some r.isSome ∧
      (r = none ↔ (order > MAX_PAGE_ORDER ∨ frames[order]? = some [])) ∧
      (∀ f, r = some f →
        order ≤ MAX_PAGE_ORDER ∧ ∃ rest, frames[order]? = some (f :: rest)) := by
  by_cases ho : order > MAX_PAGE_ORDER
  · have hnone : frames[order]? = none := List.getElem?_eq_none (by omega)
    refine ⟨none, ?_, ?_, ?_, ?_⟩
    · simp [get_first_frame, has_frames, ho]
    · simp [has_frames, ho]
    · simp [ho]
    · intro f hf; exact absurd hf (by simp)
  · have hlt : order < frames.length := by omega
    have hsome : frames[order]? = some frames[order] := List.getElem?_eq_getElem hlt
    cases hb : frames[order] with
    | nil =>
      rw [hb] at hsome
      refine ⟨none, ?_, ?_, ?_, ?_⟩
      · simp [get_first_frame, has_frames, bucket_is_empty, ho, hsome]
      · simp [has_frames, bucket_is_empty, ho, hsome]
      · simp [hsome]
      · intro f hf; exact absurd hf (by simp)
    | cons f rest =>
      rw [hb] at hsome
      refine ⟨some f, ?_, ?_, ?_, ?_⟩
      · simp [get_first_frame, has_frames, bucket_is_empty, list_first_entry, ho, hsome]
      · simp [has_frames, bucket_is_empty, ho, hsome]
      · simp [ho, hsome]
      · intro g hg
        have hfg : f = g := Option.some.inj hg
        subst hfg
        exact ⟨Nat.le_of_not_lt ho, rest, hsome⟩

/-- C10 on the free lists of the scenario (`MAX_PAGE_ORDER = 3`) at order 7: no frame, and
no bucket is read. -/
theorem get_first_frame_spec_witness :
    scenario_frames.length = 3 + 1 ∧
    ∃ r : Option frame,
      get_first_frame 3 scenario_frames 7 = some r ∧
      has_frames 3 scenario_frames 7 = some r.isSome ∧
      (r = none ↔ (7 > 3 ∨ scenario_frames[7]? = some [])) ∧
      (∀ f, r = some f → 7 ≤ 3 ∧ ∃ rest, scenario_frames[7]? = some (f :: rest)) :=
  ⟨by decide, get_first_frame_spec 3 scenario_frames 7 (by decide)⟩

/-! ## The descriptor container and the page -/

/-- C11. With `PAGE_SIZE = 4096` and a list link of two 8-byte pointers: `frames_array_meta`
has 4 bytes, `frame_t` has 32 bytes, the container has `(4096 - 4) / 32 = 127` slots and
`16 + 4 + 127 * 32 = 4084` bytes, which fit in the page; with one more slot it would not
fit. -/
theorem frames_array_fits_page :
    sizeof_frames_array_meta = 4 ∧
    sizeof_frame { size := 16, align := 8 } = 32 ∧
    frames_array_slots 4096 { size := 16, align := 8 } = 127 ∧
    sizeof_frames_array 4096 { size := 16, align := 8 } = 16 + 4 + 127 * 32 ∧
    sizeof_frames_array 4096 { size := 16, align := 8 } ≤ 4096 ∧
    4096 < sizeof_frames_array_of { size := 16, align := 8 } (127 + 1) := by
  decide

/-! ## Invalid addresses and frame numbers -/

/-- C12. `mfn_invalid(mfn)` is `paddr_invalid` of the translated address; `paddr_invalid(pa)`
holds exactly when `pa` is the sentinel or lies in no known memory range; so an mfn whose
address is in no known range is invalid, and an mfn whose address is in a known range and
is not the sentinel is valid. -/
theorem mfn_invalid_spec (PADDR_INVALID : Nat) (has_memory_range : Nat → Bool)
    (mfn_to_paddr : Nat → Nat) (mfn : Nat) :
    mfn_invalid PADDR_INVALID has_memory_range mfn_to_paddr mfn
      = paddr_invalid PADDR_INVALID has_memory_range (mfn_to_paddr mfn % 2 ^ 64) ∧
    (∀ pa, paddr_invalid PADDR_INVALID has_memory_range pa = true ↔
      (pa = PADDR_INVALID ∨ has_memory_range pa = false)) ∧
    (has_memory_range (mfn_to_paddr mfn % 2 ^ 64) = false →
      mfn_invalid PADDR_INVALID has_memory_range mfn_to_paddr mfn = true) ∧
    (has_memory_range (mfn_to_paddr mfn % 2 ^ 64) = true →
      mfn_to_paddr mfn % 2 ^ 64 ≠ PADDR_INVALID →
      mfn_invalid PADDR_INVALID has_memory_range mfn_to_paddr mfn = false) := by
  refine ⟨rfl, ?_, ?_, ?_⟩
  · intro pa
    simp [paddr_invalid]
  · intro h
    unfold mfn_invalid
    generalize mfn_to_paddr mfn % 2 ^ 64 = tp at h ⊢
    simp [paddr_invalid, h]
  · intro h hne
    unfold mfn_invalid
    generalize mfn_to_paddr mfn % 2 ^ 64 = tp at h hne ⊢
    simp [paddr_invalid, h, hne]

/-- C12 with the sentinel `2 ^ 64 - 1`, one known range `[0, 2 ^ 30)` and
`mfn_to_paddr m = m * 4096`: mfn 5 is valid. -/
theorem mfn_invalid_spec_witness :
    ((fun pa => decide (pa < 2 ^ 30)) ((fun m => m * 4096) 5 % 2 ^ 64) = true ∧
      (fun m => m * 4096) 5 % 2 ^ 64 ≠ 2 ^ 64 - 1) ∧
    mfn_invalid (2 ^ 64 - 1) (fun pa => decide (pa < 2 ^ 30)) (fun m => m * 4096) 5 = false :=
  ⟨⟨by decide, by decide⟩,
    (mfn_invalid_spec (2 ^ 64 - 1) (fun pa => decide (pa < 2 ^ 30)) (fun m => m * 4096) 5).2.2.2
      (by decide) (by decide)⟩

/-! ## The buddy below -/

/-- C15. For a 64-bit mfn that is a first sibling at `order` and not at `order + 1`,
`mfn ≥ 2 ^ order`: `PREV_MFN(mfn, order)` is `mfn - 2 ^ order` without wrap-around, and it
is a multiple of `2 ^ (order + 1)`. -/
theorem PREV_MFN_no_underflow (mfn order : Nat) (hm : mfn < 2 ^ 64)
    (h1 : FIRST_FRAME_SIBLING mfn order = true)
    (h2 : FIRST_FRAME_SIBLING mfn (order + 1) = false) :
    2 ^ order ≤ mfn ∧
    shl64 1 order ≤ mfn ∧
    PREV_MFN mfn order + 2 ^ order = mfn ∧
    PREV_MFN mfn order % 2 ^ (order + 1) = 0 := by
  have hal : mfn % 2 ^ order = 0 := (FIRST_FRAME_SIBLING_iff_of_lt order hm).1 h1
  have hnal : ¬ mfn % 2 ^ (order + 1) = 0 := by
    rw [← FIRST_FRAME_SIBLING_iff_of_lt (order + 1) hm, h2]; simp
  have hmod : mfn % 2 ^ (order + 1) = 2 ^ order := by
    rcases mod_two_pow_succ_of_aligned hal with h | h
    · exact absurd h hnal
    · exact h
  have hge : 2 ^ order ≤ mfn := by rw [← hmod]; exact Nat.mod_le _ _
  have ho : order < 64 := lt_64_of_two_pow_lt (Nat.lt_of_le_of_lt hge hm)
  rcases buddy_cases ho hal hm with ⟨h0, _⟩ | ⟨_, _, hprev, hb0⟩
  · exact absurd h0 hnal
  · refine ⟨hge, ?_, hprev, hb0⟩
    rw [shl64_one ho]; exact hge

/-- C15 at mfn 12 and order 2: `PREV_MFN(12, 2) = 8`, a multiple of 8. -/
theorem PREV_MFN_no_underflow_witness :
    (12 < 2 ^ 64 ∧ FIRST_FRAME_SIBLING 12 2 = true ∧ FIRST_FRAME_SIBLING 12 (2 + 1) = false) ∧
    (2 ^ 2 ≤ 12 ∧ shl64 1 2 ≤ 12 ∧ PREV_MFN 12 2 + 2 ^ 2 = 12 ∧
      PREV_MFN 12 2 % 2 ^ (2 + 1) = 0) :=
  ⟨⟨by decide, by decide, by decide⟩,
    PREV_MFN_no_underflow 12 2 (by decide) (by decide) (by decide)⟩

/-! ## The predicates on the null frame -/

/-- C16. On the null frame `is_frame_used` and `frame_has_paddr` return false without a
read of the frame; `is_frame_free` finds the frame not used and then reads
`frame->flags.free` through the null pointer. -/
theorem null_frame_predicates :
    is_frame_used none = false ∧
    (∀ (PAGE_SIZE : Nat) (mfn_to_paddr : Nat → Nat) (pa : Nat),
      frame_has_paddr PAGE_SIZE mfn_to_paddr none pa = false) ∧
    is_frame_free none = none :=
  ⟨rfl, fun _ _ _ => rfl, rfl⟩

/-! ## Lookup by address and by page number -/

/-- The block of a non-null frame that does not wrap, as a range of addresses. -/
theorem frame_has_paddr_some_iff (PAGE_SIZE : Nat) (mfn_to_paddr : Nat → Nat) (f : frame)
    (pa : Nat) (hpage : 0 < PAGE_SIZE)
    (hwrap : mfn_to_paddr f.mfn % 2 ^ 64 + PAGE_SIZE * 2 ^ f.order ≤ 2 ^ 64) :
    frame_has_paddr PAGE_SIZE mfn_to_paddr (some f) pa = true ↔
      mfn_to_paddr f.mfn % 2 ^ 64 ≤ pa ∧
        pa < mfn_to_paddr f.mfn % 2 ^ 64 + PAGE_SIZE * 2 ^ f.order := by
  have hsz : 0 < PAGE_SIZE * 2 ^ f.order := Nat.mul_pos hpage (Nat.two_pow_pos _)
  simp only [frame_has_paddr, ORDER_TO_SIZE, shl64, add64, sub64, Bool.and_eq_true,
    decide_eq_true_eq, ge_iff_le]
  generalize mfn_to_paddr f.mfn % 2 ^ 64 = s at hwrap ⊢
  generalize PAGE_SIZE * 2 ^ f.order = z at hwrap hsz ⊢
  omega

/-- With `mfn_to_paddr(m) = m * PAGE_SIZE`, a frame whose block lies in the address space
contains `pa` exactly when the page number of `pa` lies in the block. -/
theorem frame_has_paddr_iff_div (PAGE_SIZE : Nat) (f : frame) (pa : Nat)
    (hpage : 0 < PAGE_SIZE)
    (hwrap : f.mfn * PAGE_SIZE + PAGE_SIZE * 2 ^ f.order ≤ 2 ^ 64) :
    frame_has_paddr PAGE_SIZE (fun m => m * PAGE_SIZE) (some f) pa = true ↔
      f.mfn ≤ pa / PAGE_SIZE ∧ pa / PAGE_SIZE < f.mfn + 2 ^ f.order := by
  have hsz : 0 < PAGE_SIZE * 2 ^ f.order := Nat.mul_pos hpage (Nat.two_pow_pos _)
  have hstart : f.mfn * PAGE_SIZE % 2 ^ 64 = f.mfn * PAGE_SIZE :=
    Nat.mod_eq_of_lt (by omega)
  have hiff := frame_has_paddr_some_iff PAGE_SIZE (fun m => m * PAGE_SIZE) f pa hpage
    (by show f.mfn * PAGE_SIZE % 2 ^ 64 + _ ≤ _; rw [hstart]; exact hwrap)
  have hiff2 : frame_has_paddr PAGE_SIZE (fun m => m * PAGE_SIZE) (some f) pa = true ↔
      f.mfn * PAGE_SIZE ≤ pa ∧ pa < f.mfn * PAGE_SIZE + PAGE_SIZE * 2 ^ f.order := by
    rw [hiff]
    show f.mfn * PAGE_SIZE % 2 ^ 64 ≤ pa ∧ pa < f.mfn * PAGE_SIZE % 2 ^ 64 + _ ↔ _
    rw [hstart]
  have hend : f.mfn * PAGE_SIZE + PAGE_SIZE * 2 ^ f.order
      = (f.mfn + 2 ^ f.order) * PAGE_SIZE := by ring
  rw [hiff2, hend, Nat.le_div_iff_mul_le hpage, Nat.div_lt_iff_lt_mul hpage]

/-- C13, as the claim states it, fails for an mfn whose address does not fit in 64 bits:
with `PAGE_SIZE = 4096` the order-0 frame at mfn 0 (order at most 18, block `[0, 4096)`
inside the address space) contains `mfn_to_paddr(2 ^ 52)`, which is 0 as a `paddr_t`,
though `2 ^ 52` is not in `[0, 1)`. -/
theorem frame_has_paddr_iff_page_counterexample :
    ((free_frame 0 0).order ≤ 18 ∧
      (free_frame 0 0).mfn * 4096 + 4096 * 2 ^ (free_frame 0 0).order ≤ 2 ^ 64) ∧
    ¬ (frame_has_paddr 4096 (fun m => m * 4096) (some (free_frame 0 0))
          (2 ^ 52 * 4096 % 2 ^ 64) = true ↔
        (free_frame 0 0).mfn ≤ 2 ^ 52 ∧
          2 ^ 52 < (free_frame 0 0).mfn + 2 ^ (free_frame 0 0).order) := by
  decide

/-- C13, amended. With `mfn_to_paddr(m) = m * PAGE_SIZE`, for a non-null frame of order at
most `MAX_PAGE_ORDER` whose block lies in the address space, `frame_has_paddr(frame, pa)`
holds exactly when the page number `pa / PAGE_SIZE` lies in
`[frame.mfn, frame.mfn + 2 ^ order)`; and for every mfn `m` whose address `m * PAGE_SIZE`
fits in 64 bits, `frame_has_paddr(frame, mfn_to_paddr(m))` holds exactly when
`frame.mfn ≤ m < frame.mfn + 2 ^ order`. -/
theorem frame_has_paddr_iff_page (PAGE_SIZE MAX_PAGE_ORDER : Nat) (f : frame) (pa m : Nat)
    (hpage : 0 < PAGE_SIZE) (_hord : f.order ≤ MAX_PAGE_ORDER)
    (hwrap : f.mfn * PAGE_SIZE + PAGE_SIZE * 2 ^ f.order ≤ 2 ^ 64) :
    (frame_has_paddr PAGE_SIZE (fun m => m * PAGE_SIZE) (some f) pa = true ↔
      f.mfn ≤ pa / PAGE_SIZE ∧ pa / PAGE_SIZE < f.mfn + 2 ^ f.order) ∧
    (m * PAGE_SIZE < 2 ^ 64 →
      (frame_has_paddr PAGE_SIZE (fun m => m * PAGE_SIZE) (some f)
          (m * PAGE_SIZE % 2 ^ 64) = true ↔
        f.mfn ≤ m ∧ m < f.mfn + 2 ^ f.order)) := by
  refine ⟨frame_has_paddr_iff_div PAGE_SIZE f pa hpage hwrap, ?_⟩
  intro hm
  rw [Nat.mod_eq_of_lt hm, frame_has_paddr_iff_div PAGE_SIZE f (m * PAGE_SIZE) hpage hwrap,
    Nat.mul_div_cancel m hpage]

/-- C13, amended, at `PAGE_SIZE = 4096`, `MAX_PAGE_ORDER = 18`, the order-1 frame at mfn 3
and mfn 4: address `0x4000` is in the frame. -/
theorem frame_has_paddr_iff_page_witness :
    (0 < 4096 ∧ sample_frame.order ≤ 18 ∧
      sample_frame.mfn * 4096 + 4096 * 2 ^ sample_frame.order ≤ 2 ^ 64 ∧
      4 * 4096 < 2 ^ 64) ∧
    frame_has_paddr 4096 (fun m => m * 4096) (some sample_frame) (4 * 4096 % 2 ^ 64) = true :=
  ⟨⟨by decide, by decide, by decide, by decide⟩,
    ((frame_has_paddr_iff_page 4096 18 sample_frame 0 4
      (by decide) (by decide) (by decide)).2 (by decide)).2 ⟨by decide, by decide⟩⟩

/-! ## Aligned blocks are nested or disjoint -/

/-- With `PAGE_SIZE = 2 ^ s`, the translated start of a block aligned at order `K` is a
multiple of the block size and leaves room for the block. -/
theorem start_aligned {mfn K s : Nat} (hal : mfn % 2 ^ K = 0) (h : s + K ≤ 64) :
    (mfn * 2 ^ s) % 2 ^ 64 % 2 ^ (s + K) = 0 ∧
    (mfn * 2 ^ s) % 2 ^ 64 + 2 ^ (s + K) ≤ 2 ^ 64 := by
  obtain ⟨q, hq⟩ := Nat.dvd_of_mod_eq_zero hal
  have h64 : 2 ^ 64 = 2 ^ (s + K) * 2 ^ (64 - (s + K)) := by
    rw [← Nat.pow_add]; congr 1; omega
  have hprod : mfn * 2 ^ s = 2 ^ (s + K) * q := by rw [hq]; ring
  have hpos : 0 < 2 ^ (64 - (s + K)) := Nat.two_pow_pos _
  have hmod : (mfn * 2 ^ s) % 2 ^ 64 = 2 ^ (s + K) * (q % 2 ^ (64 - (s + K))) := by
    rw [hprod, h64, Nat.mul_mod_mul_left]
  have hr : q % 2 ^ (64 - (s + K)) < 2 ^ (64 - (s + K)) := Nat.mod_lt _ hpos
  refine ⟨by rw [hmod]; exact Nat.mul_mod_right _ _, ?_⟩
  rw [hmod]
  calc 2 ^ (s + K) * (q % 2 ^ (64 - (s + K))) + 2 ^ (s + K)
      = 2 ^ (s + K) * (q % 2 ^ (64 - (s + K)) + 1) := by ring
    _ ≤ 2 ^ (s + K) * 2 ^ (64 - (s + K)) := Nat.mul_le_mul_left _ hr
    _ = 2 ^ 64 := h64.symm

/-- Two multiples of `A`, the first below the second, are at least `A` apart. -/
theorem aligned_step {A x y : Nat} (hx : x % A = 0) (hy : y % A = 0) (hlt : x < y) :
    x + A ≤ y := by
  obtain ⟨i, hi⟩ := Nat.dvd_of_mod_eq_zero hx
  obtain ⟨j, hj⟩ := Nat.dvd_of_mod_eq_zero hy
  subst hi hj
  have hij : i < j := Nat.lt_of_mul_lt_mul_left hlt
  calc A * i + A = A * (i + 1) := by ring
    _ ≤ A * j := Nat.mul_le_mul_left _ hij

/-- A block of size `A` at a multiple of `A` and a block of size `B` at a multiple of `B`,
with `A` a divisor of `B`: the small block is inside the large one or apart from it. -/
theorem ranges_nested_or_disjoint {A B Sa Sb : Nat} (hAB : B % A = 0)
    (hSa : Sa % A = 0) (hSb : Sb % B = 0) :
    (∀ pa, ¬ ((Sa ≤ pa ∧ pa < Sa + A) ∧ (Sb ≤ pa ∧ pa < Sb + B))) ∨
    (∀ pa, (Sa ≤ pa ∧ pa < Sa + A) → (Sb ≤ pa ∧ pa < Sb + B)) := by
  have hSbA : Sb % A = 0 :=
    Nat.mod_eq_zero_of_dvd
      (Nat.dvd_trans (Nat.dvd_of_mod_eq_zero hAB) (Nat.dvd_of_mod_eq_zero hSb))
  have hendA : (Sb + B) % A = 0 :=
    Nat.mod_eq_zero_of_dvd
      (Nat.dvd_add (Nat.dvd_of_mod_eq_zero hSbA) (Nat.dvd_of_mod_eq_zero hAB))
  by_cases hin : Sb ≤ Sa ∧ Sa < Sb + B
  · right
    have hend := aligned_step hSa hendA hin.2
    intro pa hpa
    omega
  · left
    intro pa hpa
    by_cases hlt : Sa < Sb
    · have hend := aligned_step hSa hSbA hlt
      omega
    · omega

/-- The block of an aligned frame as a range of addresses, when `PAGE_SIZE = 2 ^ s`. -/
theorem aligned_frame_range {s MAX_PAGE_ORDER : Nat} (f : frame) (pa : Nat)
    (hfit : s + MAX_PAGE_ORDER < 64) (hord : f.order ≤ MAX_PAGE_ORDER)
    (hal : f.mfn % 2 ^ f.order = 0) :
    frame_has_paddr (2 ^ s) (fun m => m * 2 ^ s) (some f) pa = true ↔
      (f.mfn * 2 ^ s) % 2 ^ 64 ≤ pa ∧ pa < (f.mfn * 2 ^ s) % 2 ^ 64 + 2 ^ (s + f.order) := by
  have hp : 0 < 2 ^ (s + f.order) := Nat.two_pow_pos _
  have hroom := (start_aligned (s := s) hal (by omega)).2
  simp only [frame_has_paddr, ORDER_TO_SIZE, shl64, add64, sub64, Bool.and_eq_true,
    decide_eq_true_eq, ge_iff_le, ← Nat.pow_add]
  generalize (f.mfn * 2 ^ s) % 2 ^ 64 = S at hroom ⊢
  generalize 2 ^ (s + f.order) = A at hroom hp ⊢
  omega

/-- One direction of the nesting: the frame of the lower order is inside the other frame
or apart from it. -/
theorem aligned_frames_lower_in_higher {s MAX_PAGE_ORDER : Nat} (a b : frame)
    (hfit : s + MAX_PAGE_ORDER < 64) (hb : b.order ≤ MAX_PAGE_ORDER)
    (hab : a.order ≤ b.order)
    (hal : a.mfn % 2 ^ a.order = 0) (hbl : b.mfn % 2 ^ b.order = 0) :
    (∀ pa, ¬ (frame_has_paddr (2 ^ s) (fun m => m * 2 ^ s) (some a) pa = true ∧
        frame_has_paddr (2 ^ s) (fun m => m * 2 ^ s) (some b) pa = true)) ∨
    (∀ pa, frame_has_paddr (2 ^ s) (fun m => m * 2 ^ s) (some a) pa = true →
        frame_has_paddr (2 ^ s) (fun m => m * 2 ^ s) (some b) pa = true) := by
  have ha : a.order ≤ MAX_PAGE_ORDER := Nat.le_trans hab hb
  have hAB : 2 ^ (s + b.order) % 2 ^ (s + a.order) = 0 :=
    Nat.mod_eq_zero_of_dvd (Nat.pow_dvd_pow 2 (by omega))
  have hSa := (start_aligned (s := s) hal (by omega)).1
  have hSb := (start_aligned (s := s) hbl (by omega)).1
  rcases ranges_nested_or_disjoint hAB hSa hSb with hdis | hsub
  · left
    intro pa hpa
    rw [aligned_frame_range a pa hfit ha hal, aligned_frame_range b pa hfit hb hbl] at hpa
    exact hdis pa hpa
  · right
    intro pa hpa
    rw [aligned_frame_range a pa hfit ha hal] at hpa
    rw [aligned_frame_range b pa hfit hb hbl]
    exact hsub pa hpa

/-- C14, as the claim states it, fails for mfns whose addresses do not fit in 64 bits: with
`PAGE_SIZE = 4096` the order-0 frames at mfn 0 and at mfn `2 ^ 52`, both aligned and of
order at most 18, have different mfns and both contain the address 0, because
`mfn_to_paddr(2 ^ 52)` is 0 as a `paddr_t`. -/
theorem aligned_frames_nested_or_disjoint_counterexample :
    ((free_frame 0 0).order ≤ 18 ∧ (free_frame (2 ^ 52) 0).order ≤ 18 ∧
      FIRST_FRAME_SIBLING (free_frame 0 0).mfn (free_frame 0 0).order = true ∧
      FIRST_FRAME_SIBLING (free_frame (2 ^ 52) 0).mfn (free_frame (2 ^ 52) 0).order = true ∧
      (free_frame 0 0).order = (free_frame (2 ^ 52) 0).order ∧
      (free_frame 0 0).mfn ≠ (free_frame (2 ^ 52) 0).mfn) ∧
    ¬ ∀ pa, ¬ (frame_has_paddr 4096 (fun m => m * 4096) (some (free_frame 0 0)) pa = true ∧
      frame_has_paddr 4096 (fun m => m * 4096) (some (free_frame (2 ^ 52) 0)) pa = true) :=
  ⟨by decide, fun h => h 0 (by decide)⟩

/-- C14, amended. With `mfn_to_paddr(m) = m * PAGE_SIZE` and `PAGE_SIZE` a power of two
whose largest block fits in 64 bits, two frames of orders at most `MAX_PAGE_ORDER` whose
mfns are first siblings at their own order either share no address, or every address of the
frame of the lower order is an address of the other one; two such frames of the same order
with different mfns, both with `mfn * PAGE_SIZE < 2 ^ 64`, share no address. -/
theorem aligned_frames_nested_or_disjoint (PAGE_SIZE MAX_PAGE_ORDER s : Nat) (a b : frame)
    (hps : PAGE_SIZE = 2 ^ s) (hfit : s + MAX_PAGE_ORDER < 64)
    (ha : a.order ≤ MAX_PAGE_ORDER) (hb : b.order ≤ MAX_PAGE_ORDER)
    (hal : FIRST_FRAME_SIBLING a.mfn a.order = true)
    (hbl : FIRST_FRAME_SIBLING b.mfn b.order = true) :
    ((∀ pa, ¬ (frame_has_paddr PAGE_SIZE (fun m => m * PAGE_SIZE) (some a) pa = true ∧
        frame_has_paddr PAGE_SIZE (fun m => m * PAGE_SIZE) (some b) pa = true)) ∨
      ((a.order ≤ b.order →
          ∀ pa, frame_has_paddr PAGE_SIZE (fun m => m * PAGE_SIZE) (some a) pa = true →
            frame_has_paddr PAGE_SIZE (fun m => m * PAGE_SIZE) (some b) pa = true) ∧
        (b.order ≤ a.order →
          ∀ pa, frame_has_paddr PAGE_SIZE (fun m => m * PAGE_SIZE) (some b) pa = true →
            frame_has_paddr PAGE_SIZE (fun m => m * PAGE_SIZE) (some a) pa = true))) ∧
    (a.order = b.order → a.mfn ≠ b.mfn →
      a.mfn * PAGE_SIZE < 2 ^ 64 → b.mfn * PAGE_SIZE < 2 ^ 64 →
      ∀ pa, ¬ (frame_has_paddr PAGE_SIZE (fun m => m * PAGE_SIZE) (some a) pa = true ∧
        frame_has_paddr PAGE_SIZE (fun m => m * PAGE_SIZE) (some b) pa = true)) := by
  subst hps
  have hal2 : a.mfn % 2 ^ a.order = 0 := (FIRST_FRAME_SIBLING_iff (by omega)).1 hal
  have hbl2 : b.mfn % 2 ^ b.order = 0 := (FIRST_FRAME_SIBLING_iff (by omega)).1 hbl
  refine ⟨?_, ?_⟩
  · by_cases hd : ∀ pa, ¬ (frame_has_paddr (2 ^ s) (fun m => m * 2 ^ s) (some a) pa = true ∧
        frame_has_paddr (2 ^ s) (fun m => m * 2 ^ s) (some b) pa = true)
    · exact Or.inl hd
    · right
      refine ⟨fun hab => ?_, fun hba => ?_⟩
      · rcases aligned_frames_lower_in_higher a b hfit hb hab hal2 hbl2 with h | h
        · exact absurd h hd
        · exact h
      · rcases aligned_frames_lower_in_higher b a hfit ha hba hbl2 hal2 with h | h
        · exact absurd (fun pa hpa => h pa ⟨hpa.2, hpa.1⟩) hd
        · exact h
  · intro heq hne hma hmb pa hpa
    rw [aligned_frame_range a pa hfit ha hal2, aligned_frame_range b pa hfit hb hbl2] at hpa
    have hSa := (start_aligned (s := s) hal2 (by omega)).1
    have hSb := (start_aligned (s := s) hbl2 (by omega)).1
    rw [Nat.mod_eq_of_lt hma] at hpa hSa
    rw [Nat.mod_eq_of_lt hmb] at hpa hSb
    rw [← heq] at hpa hSb
    have hp : 0 < 2 ^ s := Nat.two_pow_pos s
    have hneS : a.mfn * 2 ^ s ≠ b.mfn * 2 ^ s :=
      fun h => hne (Nat.eq_of_mul_eq_mul_right hp h)
    rcases Nat.lt_or_gt_of_ne hneS with hlt | hgt
    · have hstep := aligned_step hSa hSb hlt
      omega
    · have hstep := aligned_step hSb hSa hgt
      omega

/-- C14, amended, at `PAGE_SIZE = 4096 = 2 ^ 12`, `MAX_PAGE_ORDER = 18`: the order-2 frame
at mfn 4 and the order-2 frame at mfn 8 share no address, here `0x8000`. -/
theorem aligned_frames_nested_or_disjoint_witness :
    (4096 = 2 ^ 12 ∧ 12 + 18 < 64 ∧ (free_frame 4 2).order ≤ 18 ∧
      (free_frame 8 2).order ≤ 18 ∧
      FIRST_FRAME_SIBLING (free_frame 4 2).mfn (free_frame 4 2).order = true ∧
      FIRST_FRAME_SIBLING (free_frame 8 2).mfn (free_frame 8 2).order = true ∧
      (free_frame 4 2).order = (free_frame 8 2).order ∧
      (free_frame 4 2).mfn ≠ (free_frame 8 2).mfn ∧
      (free_frame 4 2).mfn * 4096 < 2 ^ 64 ∧ (free_frame 8 2).mfn * 4096 < 2 ^ 64) ∧
    ¬ (frame_has_paddr 4096 (fun m => m * 4096) (some (free_frame 4 2)) 32768 = true ∧
      frame_has_paddr 4096 (fun m => m * 4096) (some (free_frame 8 2)) 32768 = true) :=
  ⟨by decide,
    (aligned_frames_nested_or_disjoint 4096 18 12 (free_frame 4 2) (free_frame 8 2)
      (by decide) (by decide) (by decide) (by decide) (by decide) (by decide)).2
      (by decide) (by decide) (by decide) (by decide) 32768⟩

end PMM
